import Mathlib

/-!
Verification development for the godepfind dependency-ownership engine.

The engine (source files godepfind.go and cache.go) is shallowly embedded
here: file-system paths are plain strings, the Go standard library helpers
from path/filepath are modelled as executable functions on slash-separated
strings, the Go maps become association lists whose iteration order is the
insertion order, and the external collaborators (the go list command,
build.ImportDir, build.Import, os.Stat, the content validator) become
fields of an explicit environment record.  Every engine method is a pure
state-passing function.
-/

namespace Godepfind

/-! ## Model of the Go path/filepath helpers on slash-separated paths

The string helpers are implemented by structural recursion over the
character list of the string, mirroring the Go standard library
behavior. -/

/-- Split the character list at a separator, like strings.Split. -/
def compsAux (sep : Char) : List Char → List Char → List String
  | cur, [] => [String.mk cur.reverse]
  | cur, ch :: rest =>
    if ch = sep then
      String.mk cur.reverse :: compsAux sep [] rest
    else compsAux sep (ch :: cur) rest

/-- Model of strings.Split on a one-character separator. -/
def strSplit (s : String) (sep : Char) : List String :=
  compsAux sep [] s.data

/-- Whether pre is a prefix of s. -/
def strIsPre (pre s : String) : Bool := pre.data.isPrefixOf s.data

/-- Drop the first n characters of s. -/
def strDropChars (s : String) (n : Nat) : String := String.mk (s.data.drop n)

/-- Join strings with a separator, like strings.Join. -/
def strIntercalate (sep : String) : List String → String
  | [] => ""
  | [x] => x
  | x :: y :: xs => x ++ sep ++ strIntercalate sep (y :: xs)

/-- Path components of a slash-separated path, dropping empty segments. -/
def pathComps (s : String) : List String :=
  (strSplit s '/').filter (fun c => c ≠ "")

/-- Model of filepath.IsAbs. -/
def goIsAbs (s : String) : Bool :=
  match s.data with
  | c :: _ => c = '/'
  | [] => false

/-- One step of the Clean algorithm: push a component onto the stack,
resolving "." and ".." the way filepath.Clean does. -/
def cleanStep (abs : Bool) (stack : List String) (c : String) : List String :=
  if c = "." then stack
  else if c = ".." then
    match stack with
    | [] => if abs then [] else [".."]
    | top :: rest => if top = ".." then c :: stack else rest
  else c :: stack

/-- Model of filepath.Clean. -/
def goCleanPath (s : String) : String :=
  let abs := goIsAbs s
  let comps := ((pathComps s).foldl (cleanStep abs) []).reverse
  if abs then "/" ++ strIntercalate "/" comps
  else if comps = [] then "." else strIntercalate "/" comps

/-- Model of filepath.Join on two elements: join with a slash and Clean,
with the empty-element conventions of the Go implementation. -/
def goJoin (a b : String) : String :=
  if a = "" ∧ b = "" then ""
  else if a = "" then goCleanPath b
  else if b = "" then goCleanPath a
  else goCleanPath (a ++ "/" ++ b)

/-- Model of filepath.Base. -/
def goBase (s : String) : String :=
  if s = "" then "."
  else match (pathComps s).getLast? with
    | some c => c
    | none => if goIsAbs s then "/" else "."

/-- Model of filepath.Dir: everything but the last component, Cleaned. -/
def goDir (s : String) : String :=
  goCleanPath ((if goIsAbs s then "/" else "") ++
    strIntercalate "/" (pathComps s).dropLast)

/-- Model of filepath.Ext on a bare file name. -/
def goExt (s : String) : String :=
  let parts := strSplit s '.'
  if parts.length ≤ 1 then "" else "." ++ (parts.getLast?.getD "")

/-- Drop the longest common leading run of two component lists. -/
def dropCommon : List String → List String → List String × List String
  | x :: xs, y :: ys => if x = y then dropCommon xs ys else (x :: xs, y :: ys)
  | xs, ys => (xs, ys)

/-- Model of filepath.Rel: none models the error return. -/
def goRel (base targ : String) : Option String :=
  if goIsAbs base = goIsAbs targ then
    let b := if goCleanPath base = "." then [] else pathComps (goCleanPath base)
    let t := if goCleanPath targ = "." then [] else pathComps (goCleanPath targ)
    let (rb, rt) := dropCommon b t
    if rb.contains ".." then none
    else
      let comps := List.replicate rb.length ".." ++ rt
      if comps = [] then some "." else some (strIntercalate "/" comps)
  else none

/-- Model of filepath.Abs with an explicit working directory. -/
def goAbs (cwd s : String) : String :=
  if goIsAbs s then goCleanPath s else goJoin cwd s

/-- Model of strings.TrimPrefix. -/
def goTrimPre (s pre : String) : String :=
  if strIsPre pre s then strDropChars s pre.data.length else s

/-! ## Association lists modelling Go maps

A Go map is modelled as an association list with unique keys; map
iteration, whose order Go leaves unspecified, is modelled as iteration in
insertion order. -/

/-- Map lookup. -/
def alookup {α : Type} : List (String × α) → String → Option α
  | [], _ => none
  | (k, v) :: rest, key => if k = key then some v else alookup rest key

/-- Map assignment: replace the binding if present, else append. -/
def ainsert {α : Type} : List (String × α) → String → α → List (String × α)
  | [], key, v => [(key, v)]
  | (k, w) :: rest, key, v =>
      if k = key then (key, v) :: rest else (k, w) :: ainsert rest key v

/-- Map deletion. -/
def adelete {α : Type} (m : List (String × α)) (key : String) :
    List (String × α) :=
  m.filter (fun e => e.1 ≠ key)

/-- The keys of a map. -/
def akeys {α : Type} (m : List (String × α)) : List String := m.map Prod.fst

/-! ## Data model: build.Package, the engine state, errors, environment -/

/-- The fields of go/build.Package that the engine reads. -/
structure Package where
  name : String
  dir : String
  goFiles : List String
  imports : List String
  testGoFiles : List String
  xtestGoFiles : List String
  testImports : List String
  xtestImports : List String
deriving DecidableEq

/-- The error values the embedded engine can return.  Wrapping with
fmt.Errorf is modelled by dedicated wrapping constructors. -/
inductive GoErr where
  | emptyFileAbsPath
  | emptyMainInput
  | mainFileNotExist (p : String)
  | validationFailed
  | goListFailed (arg : String)
  | importFailed (path : String)
  | wrapListPackages (e : GoErr)
  | wrapGetPackages (e : GoErr)
  | cacheUpdateFailed (e : GoErr)
deriving DecidableEq

/-- The external collaborators, fixed for the duration of a query run:
the process working directory, the set of paths os.Stat finds, the go
list command, build.ImportDir, build.Import (relative to the engine root),
and the content validator.

The content validator (GoFileValidator.IsValidGoFile) is not part of the
repository sources; it is modelled from the spec: an opaque collaborator
isProcessable(fileLocation) returning a boolean or an error, here an
Option Bool where none models the error return. -/
structure Env where
  cwd : String
  fs : List String
  goList : String → Option (List String)
  importDir : String → Option Package
  importPkg : String → Option Package
  isValidGoFile : String → Option Bool

/-- Success of os.Stat in the model. -/
def statOk (env : Env) (p : String) : Bool := env.fs.contains p

/-- The GoDepFind engine state (struct GoDepFind in godepfind.go).
packageCache stores pointers in Go, so its values are Option Package with
none modelling a nil entry. -/
structure GoDepFind where
  rootDir : String
  testImports : Bool
  cachedModule : Bool
  packageCache : List (String × Option Package)
  dependencyGraph : List (String × List String)
  reverseDeps : List (String × List String)
  filePathToPackage : List (String × String)
  fileToPackages : List (String × List String)
  mainPackages : List String
deriving DecidableEq

/-- Constructor New from godepfind.go. -/
def New (rootDir : String) : GoDepFind :=
  { rootDir := if rootDir = "" then "." else rootDir
    testImports := false
    cachedModule := false
    packageCache := []
    dependencyGraph := []
    reverseDeps := []
    filePathToPackage := []
    fileToPackages := []
    mainPackages := [] }

/-! ## cachedImports: depth-first traversal with a threaded visited set

The Go function mutates a shared visited map across the loop over the
direct dependencies; the embedding threads the visited list through a
fold.  The recursion is embedded with explicit fuel (none models fuel
exhaustion); cachedImports runs it with provably sufficient fuel. -/

mutual

/-- Fuel-indexed embedding of cachedImports from cache.go. -/
def cachedImportsF :
    Nat → List (String × List String) → String → String → List String →
    Option (Bool × List String)
  | 0, _, _, _, _ => none
  | n + 1, dg, path, target, visited =>
    if visited.contains path then some (false, visited)
    else
      let v1 := path :: visited
      if path = target then some (true, v1)
      else
        match alookup dg path with
        | none => some (false, v1)
        | some deps => deps.foldl (ciStep n dg target) (some (false, v1))

/-- One iteration of the dependency loop of cachedImports: short-circuit
on an established result, otherwise test the dependency and recurse. -/
def ciStep (n : Nat) (dg : List (String × List String)) (target : String)
    (acc : Option (Bool × List String)) (dep : String) :
    Option (Bool × List String) :=
  match acc with
  | none => none
  | some (true, v) => some (true, v)
  | some (false, v) =>
    if dep = target then some (true, v)
    else cachedImportsF n dg dep target v

end

/-- The number of graph keys not yet in the visited list. -/
def unvisitedCount (dg : List (String × List String))
    (visited : List String) : Nat :=
  ((akeys dg).filter (fun k => ¬ visited.contains k)).length

/-- cachedImports, run with sufficient fuel; returns the result together
with the final visited list. -/
def cachedImports (dg : List (String × List String))
    (path target : String) (visited : List String) : Bool × List String :=
  (cachedImportsF (unvisitedCount dg visited + 1) dg path target
    visited).getD (false, visited)

/-- cachedMainImportsPackage from cache.go: fresh visited map. -/
def cachedMainImportsPackage (g : GoDepFind)
    (mainPath targetPkg : String) : Bool :=
  (cachedImports g.dependencyGraph mainPath targetPkg []).1

/-- Direct-dependency edge of the cached dependency graph. -/
def depEdge (dg : List (String × List String)) (x y : String) : Prop :=
  y ∈ (alookup dg x).getD []

/-- Transitive reachability along direct-dependency edges (the ownership
relation of the spec): reflexive-transitive closure of depEdge. -/
def Reaches (dg : List (String × List String)) (x y : String) : Prop :=
  Relation.ReflTransGen (depEdge dg) x y

/-! ## Helper functions from cache.go -/

/-- Helper contains from cache.go. -/
def contains (slice : List String) (item : String) : Bool :=
  match slice with
  | [] => false
  | s :: rest => if s = item then true else contains rest item

/-- Helper removeString from cache.go: drop the first occurrence. -/
def removeString (slice : List String) (item : String) : List String :=
  match slice with
  | [] => []
  | s :: rest => if s = item then rest else s :: removeString rest item

/-! ## listPackages and getPackages from godepfind.go -/

/-- listPackages: runs go list in the engine root directory. -/
def listPackages (env : Env) (path : String) : Except GoErr (List String) :=
  match env.goList path with
  | some out => .ok out
  | none => .error (.goListFailed path)

/-- First import attempt of getPackages: for a module path containing a
slash, strip the first segment and try build.ImportDir on the joined
directory when it exists. -/
def importAttemptModule (env : Env) (rootDir path : String) :
    Option Package :=
  let parts := strSplit path '/'
  if parts.length ≥ 2 then
    let relativePath := strIntercalate "/" (parts.drop 1)
    let fullPath := goJoin rootDir relativePath
    if statOk env fullPath then env.importDir fullPath else none
  else none

/-- Second import attempt of getPackages: build.ImportDir on the path
joined to the root, when that directory exists. -/
def importAttemptDir (env : Env) (rootDir path : String) :
    Option Package :=
  let fullPath := goJoin rootDir path
  if statOk env fullPath then env.importDir fullPath else none

/-- A unit for which all three import attempts of getPackages fail. -/
def unitImportFails (env : Env) (rootDir path : String) : Bool :=
  (importAttemptModule env rootDir path).isNone ∧
  (importAttemptDir env rootDir path).isNone ∧
  (env.importPkg path).isNone

/-- Loop body of getPackages over the listed package paths. -/
def getPackagesLoop (env : Env) (rootDir : String) :
    List String → List (String × Option Package) →
    Except GoErr (List (String × Option Package))
  | [], acc => .ok acc
  | path :: rest, acc =>
    match importAttemptModule env rootDir path with
    | some pkg => getPackagesLoop env rootDir rest (ainsert acc path (some pkg))
    | none =>
      match importAttemptDir env rootDir path with
      | some pkg => getPackagesLoop env rootDir rest (ainsert acc path (some pkg))
      | none =>
        match env.importPkg path with
        | some pkg => getPackagesLoop env rootDir rest (ainsert acc path (some pkg))
        | none => .error (.importFailed path)

/-- getPackages from godepfind.go: imports a build.Package for each
listed package, aborting on the first path whose attempts all fail. -/
def getPackages (env : Env) (rootDir : String) (paths : List String) :
    Except GoErr (List (String × Option Package)) :=
  getPackagesLoop env rootDir paths []

/-! ## rebuildCache and the cache lifecycle from cache.go -/

/-- Record pkgPath as a reverse dependency of every import in imps. -/
def addRev (rd : List (String × List String)) (pkgPath : String)
    (imps : List String) : List (String × List String) :=
  imps.foldl (fun acc imp =>
    ainsert acc imp (((alookup acc imp).getD []) ++ [pkgPath])) rd

/-- Step 3 of rebuildCache: dependency graph and reverse dependencies. -/
def buildGraphs (ti : Bool) (packages : List (String × Option Package)) :
    List (String × List String) × List (String × List String) :=
  packages.foldl (fun acc entry =>
    match entry.2 with
    | none => acc
    | some pkg =>
      let dg1 := ainsert acc.1 entry.1 pkg.imports
      let rd1 := addRev acc.2 entry.1 pkg.imports
      let rd2 :=
        if ti then addRev (addRev rd1 entry.1 pkg.testImports) entry.1
          pkg.xtestImports
        else rd1
      (dg1, rd2)) ([], [])

/-- Record one file list of a package in both file maps. -/
def addFileMaps (pkgPath pkgDir : String)
    (acc : List (String × String) × List (String × List String))
    (files : List String) :
    List (String × String) × List (String × List String) :=
  files.foldl (fun a file =>
    let absPath := goJoin pkgDir file
    let fp := ainsert a.1 absPath pkgPath
    let fileName := goBase file
    let ftp := ainsert a.2 fileName
      (((alookup a.2 fileName).getD []) ++ [pkgPath])
    (fp, ftp)) acc

/-- Step 4 of rebuildCache: exact-path map and basename multimap. -/
def buildFileMaps (ti : Bool) (packages : List (String × Option Package)) :
    List (String × String) × List (String × List String) :=
  packages.foldl (fun acc entry =>
    match entry.2 with
    | none => acc
    | some pkg =>
      let a1 := addFileMaps entry.1 pkg.dir acc pkg.goFiles
      if ti then
        addFileMaps entry.1 pkg.dir
          (addFileMaps entry.1 pkg.dir a1 pkg.testGoFiles) pkg.xtestGoFiles
      else a1) ([], [])

/-- Step 5 of rebuildCache: the packages named main. -/
def collectMains (packages : List (String × Option Package)) : List String :=
  packages.foldl (fun acc entry =>
    match entry.2 with
    | some pkg => if pkg.name = "main" then acc ++ [entry.1] else acc
    | none => acc) []

/-- rebuildCache from cache.go: full rebuild of every index from the
lister output.  On failure the state is returned unchanged. -/
def rebuildCache (env : Env) (g : GoDepFind) : GoDepFind × Option GoErr :=
  match listPackages env "./..." with
  | .error e => (g, some (.wrapListPackages e))
  | .ok allPaths =>
    match getPackages env g.rootDir allPaths with
    | .error e => (g, some (.wrapGetPackages e))
    | .ok packages =>
      let gr := buildGraphs g.testImports packages
      let fm := buildFileMaps g.testImports packages
      ({ g with packageCache := packages
                dependencyGraph := gr.1
                reverseDeps := gr.2
                filePathToPackage := fm.1
                fileToPackages := fm.2
                mainPackages := collectMains packages
                cachedModule := true }, none)

/-- ensureCacheInitialized from cache.go. -/
def ensureCacheInitialized (env : Env) (g : GoDepFind) :
    GoDepFind × Option GoErr :=
  if g.cachedModule then (g, none) else rebuildCache env g

/-- Drop the first occurrence of pkg from every dependency list. -/
def removeDepEverywhere (dg : List (String × List String)) (pkg : String) :
    List (String × List String) :=
  dg.map (fun e => (e.1, removeString e.2 pkg))

/-- One package invalidation step of invalidatePackageCache. -/
def invalStep (gg : GoDepFind) (pkg : String) : GoDepFind :=
  { gg with packageCache := adelete gg.packageCache pkg
            dependencyGraph :=
              removeDepEverywhere (adelete gg.dependencyGraph pkg) pkg
            reverseDeps := adelete gg.reverseDeps pkg }

/-- invalidatePackageCache from cache.go: for every package owning the
file name, drop it from all three caches and prune it from the other
dependency lists. -/
def invalidatePackageCache (g : GoDepFind) (fileName : String) :
    GoDepFind × Option GoErr :=
  let packages := (alookup g.fileToPackages fileName).getD []
  (packages.foldl invalStep g, none)

/-- invalidatePackageCacheOnly from cache.go: drop only the packageCache
entries, preserving the dependency graph and reverse dependencies. -/
def invalidatePackageCacheOnly (g : GoDepFind) (fileName : String) :
    GoDepFind × Option GoErr :=
  let packages := (alookup g.fileToPackages fileName).getD []
  ({ g with packageCache :=
      packages.foldl (fun pc pkg => adelete pc pkg) g.packageCache }, none)

/-! ## findPackageContainingFileByPath from godepfind.go -/

/-- Whether one of the listed files of a package resolves to absPath. -/
def fileMatchesIn (env : Env) (pkgDir absPath : String)
    (files : List String) : Bool :=
  files.any (fun file =>
    let candidate := if goIsAbs file then file else goJoin pkgDir file
    goAbs env.cwd candidate = absPath)

/-- The cached scan of findPackageContainingFileByPath. -/
def scanCachedForFile (env : Env) (ti : Bool) (absPath : String) :
    List (String × Option Package) → Option String
  | [] => none
  | (_, none) :: rest => scanCachedForFile env ti absPath rest
  | (pkgPath, some pkg) :: rest =>
    if fileMatchesIn env pkg.dir absPath pkg.goFiles then some pkgPath
    else if ti ∧ fileMatchesIn env pkg.dir absPath pkg.testGoFiles then
      some pkgPath
    else if ti ∧ fileMatchesIn env pkg.dir absPath pkg.xtestGoFiles then
      some pkgPath
    else scanCachedForFile env ti absPath rest

/-- The fallback scan of findPackageContainingFileByPath (GoFiles only). -/
def scanPackagesForFile (env : Env) (absPath : String) :
    List (String × Option Package) → Option String
  | [] => none
  | (_, none) :: rest => scanPackagesForFile env absPath rest
  | (path, some pkg) :: rest =>
    if fileMatchesIn env pkg.dir absPath pkg.goFiles then some path
    else scanPackagesForFile env absPath rest

/-- findPackageContainingFileByPath from godepfind.go. -/
def findPackageContainingFileByPath (env : Env) (g : GoDepFind)
    (filePath : String) : GoDepFind × Except GoErr String :=
  match ensureCacheInitialized env g with
  | (g1, some e) => (g1, .error e)
  | (g1, none) =>
    let absPath := goAbs env.cwd filePath
    match (if g1.packageCache.length > 0 then
             scanCachedForFile env g1.testImports absPath g1.packageCache
           else none) with
    | some pkgPath => (g1, .ok pkgPath)
    | none =>
      match listPackages env "./..." with
      | .error e => (g1, .error e)
      | .ok allPaths =>
        match getPackages env g1.rootDir allPaths with
        | .error e => (g1, .error e)
        | .ok packages =>
          match scanPackagesForFile env absPath packages with
          | some path => (g1, .ok path)
          | none => (g1, .ok "")

/-! ## File-event handlers from cache.go -/

/-- handleFileCreate from cache.go. -/
def handleFileCreate (env : Env) (g : GoDepFind)
    (fileName filePath : String) : GoDepFind × Option GoErr :=
  match findPackageContainingFileByPath env g filePath with
  | (g1, .error e) => (g1, some e)
  | (g1, .ok pkg) =>
    if pkg ≠ "" then
      let absPath := goAbs env.cwd filePath
      let g2 := { g1 with
        filePathToPackage := ainsert g1.filePathToPackage absPath pkg }
      let g3 :=
        if contains ((alookup g2.fileToPackages fileName).getD []) pkg then g2
        else { g2 with fileToPackages := (ainsert g2.fileToPackages fileName
          (((alookup g2.fileToPackages fileName).getD []) ++ [pkg])) }
      invalidatePackageCache g3 fileName
    else (g1, none)

/-- handleFileRemove from cache.go.  The error of the inner package
lookup is discarded, as in the source. -/
def handleFileRemove (env : Env) (g : GoDepFind)
    (fileName filePath : String) : GoDepFind × Option GoErr :=
  let g1 :=
    if filePath ≠ "" then
      { g with filePathToPackage :=
          adelete g.filePathToPackage (goAbs env.cwd filePath) }
    else g
  let g2 :=
    if filePath ≠ "" then
      match findPackageContainingFileByPath env g1 filePath with
      | (ga, .ok pkg) =>
        if pkg ≠ "" then
          { ga with fileToPackages := (ainsert ga.fileToPackages fileName
              (removeString ((alookup ga.fileToPackages fileName).getD [])
                pkg)) }
        else ga
      | (ga, .error _) => ga
    else g1
  invalidatePackageCache g2 fileName

/-- isSameFile from cache.go. -/
def isSameFile (env : Env) (g : GoDepFind) (filePath1 filePath2 : String) :
    Bool :=
  let abs1 := if goIsAbs filePath1 then goCleanPath filePath1
              else goAbs env.cwd (goJoin g.rootDir filePath1)
  let abs2 := if goIsAbs filePath2 then goCleanPath filePath2
              else goAbs env.cwd (goJoin g.rootDir filePath2)
  abs1 = abs2

/-- rescanMainPackageDependencies from cache.go: a full rebuild. -/
def rescanMainPackageDependencies (env : Env) (g : GoDepFind)
    (_mainFilePath : String) : GoDepFind × Option GoErr :=
  rebuildCache env g

/-- updateCacheForFileWithContext from cache.go. -/
def updateCacheForFileWithContext (env : Env) (g : GoDepFind)
    (fileName filePath event handlerMainFile : String) :
    GoDepFind × Option GoErr :=
  match ensureCacheInitialized env g with
  | (g1, some e) => (g1, some e)
  | (g1, none) =>
    if event = "write" then
      if handlerMainFile ≠ "" ∧ isSameFile env g1 filePath handlerMainFile
      then rescanMainPackageDependencies env g1 filePath
      else invalidatePackageCacheOnly g1 fileName
    else if event = "create" then handleFileCreate env g1 fileName filePath
    else if event = "remove" then handleFileRemove env g1 fileName filePath
    else if event = "rename" then
      match handleFileRemove env g1 fileName filePath with
      | (g2, some e) => (g2, some e)
      | (g2, none) => handleFileCreate env g2 fileName filePath
    else (g1, none)

/-! ## The ownership resolver from godepfind.go -/

/-- findPackageForFile from godepfind.go: exact path, then path relative
to the working directory, then the first basename candidate. -/
def findPackageForFile (env : Env) (g : GoDepFind)
    (fileAbsPath fileName : String) : GoDepFind × Except GoErr String :=
  match ensureCacheInitialized env g with
  | (g1, some e) => (g1, .error e)
  | (g1, none) =>
    match alookup g1.filePathToPackage fileAbsPath with
    | some pkg => (g1, .ok pkg)
    | none =>
      match (match goRel env.cwd fileAbsPath with
             | some relPath => alookup g1.filePathToPackage relPath
             | none => none) with
      | some pkg => (g1, .ok pkg)
      | none =>
        match (alookup g1.fileToPackages fileName).getD [] with
        | [] => (g1, .ok "")
        | p :: _ => (g1, .ok p)

/-- isMainPackage from godepfind.go. -/
def isMainPackage (g : GoDepFind) (pkgPath : String) : Bool :=
  contains g.mainPackages pkgPath

/-- Case 2 loop of doesPackageBelongToHandler: some main package imports
the target and resolves to the handler directory. -/
def caseTwoLoop (g : GoDepFind) (handlerDir targetPkg : String) :
    List String → Bool
  | [] => false
  | mainPkg :: rest =>
    if cachedMainImportsPackage g mainPkg targetPkg then
      match alookup g.packageCache mainPkg with
      | some (some pkg) =>
        (match goRel g.rootDir pkg.dir with
         | some relPkgDir =>
           if goCleanPath relPkgDir = goCleanPath handlerDir then true
           else caseTwoLoop g handlerDir targetPkg rest
         | none => caseTwoLoop g handlerDir targetPkg rest)
      | _ => caseTwoLoop g handlerDir targetPkg rest
    else caseTwoLoop g handlerDir targetPkg rest

/-- doesPackageBelongToHandler from godepfind.go. -/
def doesPackageBelongToHandler (g : GoDepFind)
    (targetPkg mainInputFileRelativePath : String) : Bool :=
  let handlerDir := goDir mainInputFileRelativePath
  if isMainPackage g targetPkg then
    match alookup g.packageCache targetPkg with
    | some (some pkg) =>
      (match goRel g.rootDir pkg.dir with
       | some relPkgDir => decide (goCleanPath relPkgDir = goCleanPath handlerDir)
       | none => decide (goBase targetPkg = goBase handlerDir))
    | _ => decide (goBase targetPkg = goBase handlerDir)
  else
    caseTwoLoop g handlerDir targetPkg g.mainPackages

/-- checkPackageBasedOwnership from godepfind.go. -/
def checkPackageBasedOwnership (env : Env) (g : GoDepFind)
    (mainInputFileRelativePath fileAbsPath fileName : String) :
    GoDepFind × Bool × Option GoErr :=
  match findPackageForFile env g fileAbsPath fileName with
  | (g1, .error e) => (g1, false, some e)
  | (g1, .ok targetPkg) =>
    if targetPkg = "" then (g1, false, none)
    else (g1, doesPackageBelongToHandler g1 targetPkg
      mainInputFileRelativePath, none)

/-- Step 2 of ThisFileIsMine: normalize the changed path to absolute. -/
def normalizeFileAbs (env : Env) (g : GoDepFind) (fileAbsPath : String) :
    String :=
  goAbs env.cwd
    (if goIsAbs fileAbsPath then fileAbsPath else goJoin g.rootDir fileAbsPath)

/-- Step 3 of ThisFileIsMine: absolute location of the handler main. -/
def handlerMainAbs (g : GoDepFind) (mainInputFileRelativePath : String) :
    String :=
  if goIsAbs mainInputFileRelativePath then mainInputFileRelativePath
  else goJoin g.rootDir mainInputFileRelativePath

/-- Step 5 of ThisFileIsMine: the changed file is the handler main. -/
def isOwnMainFile (env : Env) (g : GoDepFind)
    (mainInputFileRelativePath fileAbsPath : String) : Bool :=
  decide (goTrimPre (normalizeFileAbs env g fileAbsPath) (g.rootDir ++ "/") =
    mainInputFileRelativePath)

/-- ThisFileIsMine from godepfind.go, the ownedBy query of the spec. -/
def ThisFileIsMine (env : Env) (g : GoDepFind)
    (mainInputFileRelativePath fileAbsPath event : String) :
    GoDepFind × Bool × Option GoErr :=
  if fileAbsPath = "" then (g, false, some .emptyFileAbsPath)
  else if mainInputFileRelativePath = "" then (g, false, some .emptyMainInput)
  else
    let fileAbs := normalizeFileAbs env g fileAbsPath
    let fileName := goBase fileAbs
    if ¬ statOk env (handlerMainAbs g mainInputFileRelativePath) then
      (g, false, some (.mainFileNotExist mainInputFileRelativePath))
    else
      match (if goExt fileName = ".go" then
               match env.isValidGoFile fileAbs with
               | none => some (g, false, some GoErr.validationFailed)
               | some false => some (g, false, (none : Option GoErr))
               | some true => none
             else none) with
      | some r => r
      | none =>
        if isOwnMainFile env g mainInputFileRelativePath fileAbsPath then
          match updateCacheForFileWithContext env g fileName fileAbs event
              mainInputFileRelativePath with
          | (g1, some e) => (g1, false, some (.cacheUpdateFailed e))
          | (g1, none) => (g1, true, none)
        else
          checkPackageBasedOwnership env g mainInputFileRelativePath fileAbs
            fileName

/-- Resolution of a unit against the handler directory as used by
doesPackageBelongToHandler: a cached package whose directory, relative to
the root, cleans to the handler directory. -/
def handlerDirMatch (g : GoDepFind) (m hd : String) : Bool :=
  match alookup g.packageCache m with
  | some (some pkg) =>
    (match goRel g.rootDir pkg.dir with
     | some relPkgDir => decide (goCleanPath relPkgDir = goCleanPath hd)
     | none => false)
  | _ => false

/-- The pure lookup value of findPackageForFile on an initialized state:
exact absolute path, then the path relative to the working directory,
then the first basename candidate, else the empty identifier. -/
def fpfLookup (env : Env) (g : GoDepFind)
    (fileAbsPath fileName : String) : String :=
  match alookup g.filePathToPackage fileAbsPath with
  | some pkg => pkg
  | none =>
    match (match goRel env.cwd fileAbsPath with
           | some relPath => alookup g.filePathToPackage relPath
           | none => none) with
    | some pkg => pkg
    | none =>
      match (alookup g.fileToPackages fileName).getD [] with
      | [] => ""
      | p :: _ => p

/-! ## Concrete data used by witnesses and counterexamples

A small module under root /p with one entry unit proj/appA (directory
/p/appA, file main.go, importing proj/db) and one library unit proj/db
(directory /p/db, file db.go). -/

/-- Metadata of the entry unit. -/
def pkgApp : Package :=
  { name := "main", dir := "/p/appA", goFiles := ["main.go"]
    imports := ["proj/db"], testGoFiles := [], xtestGoFiles := []
    testImports := [], xtestImports := [] }

/-- Metadata of the library unit. -/
def pkgDb : Package :=
  { name := "db", dir := "/p/db", goFiles := ["db.go"], imports := []
    testGoFiles := [], xtestGoFiles := [], testImports := []
    xtestImports := [] }

/-- A healthy collaborator environment for the module. -/
def envW : Env :=
  { cwd := "/w"
    fs := ["/p/appA", "/p/db", "/p/appA/main.go", "/p/db/db.go"]
    goList := fun a =>
      if a = "./..." then some ["proj/appA", "proj/db"] else none
    importDir := fun d =>
      if d = "/p/appA" then some pkgApp
      else if d = "/p/db" then some pkgDb else none
    importPkg := fun _ => none
    isValidGoFile := fun _ => some true }

/-- The engine state after the first full scan of the module. -/
def gW : GoDepFind := (rebuildCache envW (New "/p")).1

/-- A reachable state in which a second entry unit other/appA is still
registered while its scan metadata has been dropped from packageCache
(as invalidatePackageCacheOnly does), and a file of that unit is indexed
by exact path. -/
def gX : GoDepFind :=
  { rootDir := "/p", testImports := false, cachedModule := true
    packageCache := [("proj/appA", some pkgApp)]
    dependencyGraph := []
    reverseDeps := []
    filePathToPackage := [("/p/otherapp/x.go", "other/appA")]
    fileToPackages := [("x.go", ["other/appA"])]
    mainPackages := ["proj/appA", "other/appA"] }

/-- An environment whose lister reports a unit proj/bad that no import
attempt can resolve. -/
def envC6 : Env :=
  { envW with goList := fun a =>
      if a = "./..." then some ["proj/appA", "proj/bad"] else none }

/-- An environment in which the lister now fails for the whole tree. -/
def envC7 : Env :=
  { cwd := "/w"
    fs := ["/p/appA/main.go"]
    goList := fun _ => none
    importDir := fun _ => none
    importPkg := fun _ => none
    isValidGoFile := fun _ => some true }

/-- A ready state holding scan metadata for the entry unit, reachable
after an earlier successful scan followed by file-system changes. -/
def gC7 : GoDepFind :=
  { rootDir := "/p", testImports := false, cachedModule := true
    packageCache := [("proj/appA", some pkgApp)]
    dependencyGraph := []
    reverseDeps := []
    filePathToPackage := []
    fileToPackages := []
    mainPackages := ["proj/appA"] }

/-- A ready state whose basename multimap holds two candidates for one
shared file name and no exact-path entries. -/
def gY : GoDepFind :=
  { rootDir := "/p", testImports := false, cachedModule := true
    packageCache := [], dependencyGraph := [], reverseDeps := []
    filePathToPackage := []
    fileToPackages := [("shared.go", ["proj/a", "proj/b"])]
    mainPackages := [] }

/-! ## Basic lemmas on the map model -/

theorem alookup_isSome_mem {α : Type} {m : List (String × α)} {k : String}
    (h : (alookup m k).isSome) : k ∈ akeys m := by
  induction m with
  | nil => simp [alookup] at h
  | cons e rest ih =>
    obtain ⟨a, b⟩ := e
    by_cases hk : a = k
    · subst hk; simp [akeys]
    · simp only [alookup, hk, if_false] at h
      exact List.mem_cons_of_mem _ (ih h)

theorem contains_iff_mem {l : List String} {x : String} :
    contains l x = true ↔ x ∈ l := by
  induction l with
  | nil => simp [contains]
  | cons a rest ih =>
    by_cases ha : a = x
    · subst ha; simp [contains]
    · simp [contains, ha, ih, Ne.symm ha]

/-! ## Lemmas on the dependency traversal -/

theorem filter_length_mono (l : List String) (p q : String → Bool)
    (h : ∀ a ∈ l, p a → q a) :
    (l.filter p).length ≤ (l.filter q).length := by
  induction l with
  | nil => simp
  | cons a rest ih =>
    have ih' := ih (fun x hx hpx => h x (List.mem_cons_of_mem _ hx) hpx)
    by_cases hp : p a
    · have hq : q a := h a (List.mem_cons_self a rest) hp
      simp only [List.filter_cons, hp, if_true, hq]
      simpa using ih'
    · simp only [List.filter_cons]
      simp only [hp, if_false, Bool.false_eq_true]
      by_cases hq : q a
      · simp only [hq, if_true, List.length_cons]
        omega
      · simp only [hq, if_false, Bool.false_eq_true]
        exact ih'

theorem list_contains_iff {l : List String} {x : String} :
    l.contains x = true ↔ x ∈ l := by simp

theorem unvisitedCount_anti (dg : List (String × List String))
    {v w : List String} (h : v ⊆ w) :
    unvisitedCount dg w ≤ unvisitedCount dg v := by
  apply filter_length_mono
  intro a _ ha
  simp only [decide_eq_true_eq] at ha ⊢
  intro hav
  exact ha (list_contains_iff.mpr (h (list_contains_iff.mp hav)))

theorem unvisitedCount_cons_lt {dg : List (String × List String)}
    {p : String} {v : List String} (hk : p ∈ akeys dg)
    (hv : v.contains p = false) :
    unvisitedCount dg (p :: v) < unvisitedCount dg v := by
  unfold unvisitedCount
  have hstep : (akeys dg).filter (fun k => ¬ (p :: v).contains k) =
      ((akeys dg).filter (fun k => ¬ v.contains k)).filter
        (fun k => ¬ (p :: v).contains k) := by
    rw [List.filter_filter]
    apply List.filter_congr
    intro a _
    by_cases hva : v.contains a
    · have : (p :: v).contains a := by
        simp only [List.contains_cons, hva, Bool.or_true]
      simp [this, hva]
    · simp [hva]
  rw [hstep]
  rw [List.length_filter_lt_length_iff_exists]
  refine ⟨p, ?_, ?_⟩
  · rw [List.mem_filter]
    refine ⟨hk, ?_⟩
    simpa using hv
  · simp [List.contains_cons]

theorem foldl_ciStep_none (n : Nat) (dg : List (String × List String))
    (target : String) (deps : List String) :
    deps.foldl (ciStep n dg target) none = none := by
  induction deps with
  | nil => rfl
  | cons d rest ih => simpa [ciStep] using ih

theorem foldl_ciStep_true (n : Nat) (dg : List (String × List String))
    (target : String) (v : List String) (deps : List String) :
    deps.foldl (ciStep n dg target) (some (true, v)) = some (true, v) := by
  induction deps with
  | nil => rfl
  | cons d rest ih => simpa [ciStep] using ih

theorem ciF_mono : ∀ (n : Nat) (dg : List (String × List String))
    (target p : String) (v : List String) (r : Bool) (w : List String),
    cachedImportsF n dg p target v = some (r, w) → v ⊆ w := by
  intro n
  induction n with
  | zero => intro dg target p v r w h; simp [cachedImportsF] at h
  | succ m ih =>
    have hfold : ∀ (dg : List (String × List String)) (target : String)
        (deps : List String) (v : List String) (r : Bool) (w : List String),
        deps.foldl (ciStep m dg target) (some (false, v)) = some (r, w) →
        v ⊆ w := by
      intro dg target deps
      induction deps with
      | nil =>
        intro v r w h
        simp only [List.foldl_nil, Option.some.injEq, Prod.mk.injEq] at h
        rw [← h.2]
        exact List.Subset.refl _
      | cons dep rest ihd =>
        intro v r w h
        simp only [List.foldl_cons] at h
        by_cases hdt : dep = target
        · rw [show ciStep m dg target (some (false, v)) dep =
              some (true, v) by simp [ciStep, hdt]] at h
          rw [foldl_ciStep_true] at h
          simp only [Option.some.injEq, Prod.mk.injEq] at h
          rw [← h.2]
          exact List.Subset.refl _
        · rw [show ciStep m dg target (some (false, v)) dep =
              cachedImportsF m dg dep target v by simp [ciStep, hdt]] at h
          cases hc : cachedImportsF m dg dep target v with
          | none => rw [hc, foldl_ciStep_none] at h; exact absurd h (by simp)
          | some q =>
            obtain ⟨rb, v1⟩ := q
            rw [hc] at h
            have hsub1 : v ⊆ v1 := ih dg target dep v rb v1 hc
            cases rb with
            | true =>
              rw [foldl_ciStep_true] at h
              simp only [Option.some.injEq, Prod.mk.injEq] at h
              rw [← h.2]; exact hsub1
            | false => exact hsub1.trans (ihd v1 r w h)
    intro dg target p v r w h
    rw [cachedImportsF] at h
    by_cases hv : v.contains p
    · simp only [hv, if_true, Option.some.injEq, Prod.mk.injEq] at h
      rw [← h.2]
      exact List.Subset.refl _
    · simp only [hv, if_false, Bool.false_eq_true] at h
      by_cases hpt : p = target
      · simp only [hpt, if_true, Option.some.injEq, Prod.mk.injEq] at h
        rw [← h.2]
        exact List.subset_cons_self _ _
      · simp only [hpt, if_false] at h
        cases hl : alookup dg p with
        | none =>
          rw [hl] at h
          simp only [Option.some.injEq, Prod.mk.injEq] at h
          rw [← h.2]
          exact List.subset_cons_self _ _
        | some deps =>
          rw [hl] at h
          exact (List.subset_cons_self _ _).trans
            (hfold dg target deps (p :: v) r w h)

theorem ciF_isSome : ∀ (n : Nat) (dg : List (String × List String))
    (target p : String) (v : List String),
    unvisitedCount dg v < n → (cachedImportsF n dg p target v).isSome := by
  intro n
  induction n with
  | zero => intro dg target p v h; omega
  | succ m ih =>
    have hfold : ∀ (dg : List (String × List String)) (target : String)
        (deps : List String) (v : List String),
        unvisitedCount dg v < m →
        (deps.foldl (ciStep m dg target) (some (false, v))).isSome := by
      intro dg target deps
      induction deps with
      | nil => intro v _; simp
      | cons dep rest ihd =>
        intro v hc
        simp only [List.foldl_cons]
        by_cases hdt : dep = target
        · rw [show ciStep m dg target (some (false, v)) dep =
              some (true, v) by simp [ciStep, hdt]]
          rw [foldl_ciStep_true]
          simp
        · rw [show ciStep m dg target (some (false, v)) dep =
              cachedImportsF m dg dep target v by simp [ciStep, hdt]]
          have hsome := ih dg target dep v hc
          cases hq : cachedImportsF m dg dep target v with
          | none => rw [hq] at hsome; simp at hsome
          | some q =>
            obtain ⟨rb, v1⟩ := q
            have hsub : v ⊆ v1 := ciF_mono m dg target dep v rb v1 hq
            cases rb with
            | true => rw [foldl_ciStep_true]; simp
            | false =>
              exact ihd v1
                (lt_of_le_of_lt (unvisitedCount_anti dg hsub) hc)
    intro dg target p v h
    rw [cachedImportsF]
    by_cases hv : v.contains p
    · simp only [hv, if_true, Option.isSome_some]
    · simp only [hv, if_false, Bool.false_eq_true]
      by_cases hpt : p = target
      · simp only [hpt, if_true, Option.isSome_some]
      · simp only [hpt, if_false]
        cases hl : alookup dg p with
        | none => rfl
        | some deps =>
          have hkey : p ∈ akeys dg :=
            alookup_isSome_mem (by rw [hl]; rfl)
          have hlt : unvisitedCount dg (p :: v) < unvisitedCount dg v :=
            unvisitedCount_cons_lt hkey (by simpa using hv)
          exact hfold dg target deps (p :: v) (by omega)

theorem ciF_fuel_mono : ∀ (n m : Nat), n ≤ m →
    ∀ (dg : List (String × List String)) (target p : String)
    (v : List String) (r : Bool × List String),
    cachedImportsF n dg p target v = some r →
    cachedImportsF m dg p target v = some r := by
  intro n
  induction n with
  | zero => intro m _ dg target p v r h; simp [cachedImportsF] at h
  | succ k ih =>
    intro m hm dg target p v r h
    cases m with
    | zero => omega
    | succ m' =>
      have hkm : k ≤ m' := by omega
      have hfold : ∀ (deps : List String) (v : List String)
          (r : Bool × List String),
          deps.foldl (ciStep k dg target) (some (false, v)) = some r →
          deps.foldl (ciStep m' dg target) (some (false, v)) = some r := by
        intro deps
        induction deps with
        | nil => intro v r h; simpa using h
        | cons dep rest ihd =>
          intro v r h
          simp only [List.foldl_cons] at h ⊢
          by_cases hdt : dep = target
          · rw [show ciStep k dg target (some (false, v)) dep =
                some (true, v) by simp [ciStep, hdt]] at h
            rw [show ciStep m' dg target (some (false, v)) dep =
                some (true, v) by simp [ciStep, hdt]]
            rw [foldl_ciStep_true] at h ⊢
            exact h
          · rw [show ciStep k dg target (some (false, v)) dep =
                cachedImportsF k dg dep target v by simp [ciStep, hdt]] at h
            rw [show ciStep m' dg target (some (false, v)) dep =
                cachedImportsF m' dg dep target v by simp [ciStep, hdt]]
            cases hq : cachedImportsF k dg dep target v with
            | none => rw [hq, foldl_ciStep_none] at h; exact absurd h (by simp)
            | some q =>
              rw [ih m' hkm dg target dep v q hq]
              rw [hq] at h
              obtain ⟨rb, v1⟩ := q
              cases rb with
              | true => rw [foldl_ciStep_true] at h ⊢; exact h
              | false => exact ihd v1 r h
      rw [cachedImportsF] at h
      rw [cachedImportsF]
      by_cases hv : v.contains p
      · simp only [hv, if_true] at h ⊢
        exact h
      · simp only [hv, if_false, Bool.false_eq_true] at h ⊢
        by_cases hpt : p = target
        · simp only [hpt, if_true] at h ⊢
          exact h
        · simp only [hpt, if_false] at h ⊢
          cases hl : alookup dg p with
          | none => rw [hl] at h; exact h
          | some deps => rw [hl] at h; exact hfold deps (p :: v) r h

theorem ciF_sound : ∀ (n : Nat) (dg : List (String × List String))
    (target p : String) (v w : List String),
    cachedImportsF n dg p target v = some (true, w) →
    Reaches dg p target := by
  intro n
  induction n with
  | zero => intro dg target p v w h; simp [cachedImportsF] at h
  | succ m ih =>
    have hfold : ∀ (dg : List (String × List String)) (target p : String)
        (deps : List String), alookup dg p = some deps →
        ∀ (sub : List String), sub ⊆ deps → ∀ (v w : List String),
        sub.foldl (ciStep m dg target) (some (false, v)) = some (true, w) →
        Reaches dg p target := by
      intro dg target p deps hdeps sub
      induction sub with
      | nil =>
        intro _ v w h
        simp only [List.foldl_nil, Option.some.injEq, Prod.mk.injEq] at h
        exact absurd h.1 (by simp)
      | cons dep rest ihd =>
        intro hsub v w h
        have hdep : dep ∈ deps := hsub (List.mem_cons_self _ _)
        have hedge : depEdge dg p dep := by
          simp only [depEdge, hdeps, Option.getD_some]
          exact hdep
        simp only [List.foldl_cons] at h
        by_cases hdt : dep = target
        · exact Relation.ReflTransGen.single (hdt ▸ hedge)
        · rw [show ciStep m dg target (some (false, v)) dep =
              cachedImportsF m dg dep target v by simp [ciStep, hdt]] at h
          cases hq : cachedImportsF m dg dep target v with
          | none => rw [hq, foldl_ciStep_none] at h; exact absurd h (by simp)
          | some q =>
            obtain ⟨rb, v1⟩ := q
            rw [hq] at h
            cases rb with
            | true =>
              exact Relation.ReflTransGen.head hedge
                (ih dg target dep v v1 hq)
            | false =>
              exact ihd (fun x hx => hsub (List.mem_cons_of_mem _ hx)) v1 w h
    intro dg target p v w h
    rw [cachedImportsF] at h
    by_cases hv : v.contains p
    · simp only [hv, if_true, Option.some.injEq, Prod.mk.injEq] at h
      exact absurd h.1 (by simp)
    · simp only [hv, if_false, Bool.false_eq_true] at h
      by_cases hpt : p = target
      · exact hpt ▸ Relation.ReflTransGen.refl
      · simp only [hpt, if_false] at h
        cases hl : alookup dg p with
        | none =>
          rw [hl] at h
          simp at h
        | some deps =>
          rw [hl] at h
          exact hfold dg target p deps hl deps (List.Subset.refl _)
            (p :: v) w h

theorem ciF_closed : ∀ (n : Nat) (dg : List (String × List String))
    (target p : String) (v w : List String),
    cachedImportsF n dg p target v = some (false, w) →
    p ∈ w ∧ ∀ x ∈ w, x ∉ v →
      (x ≠ target ∧ ∀ y ∈ (alookup dg x).getD [], y ∈ w) := by
  intro n
  induction n with
  | zero => intro dg target p v w h; simp [cachedImportsF] at h
  | succ m ih =>
    have hfold : ∀ (dg : List (String × List String)) (target : String)
        (sub : List String) (u w : List String),
        sub.foldl (ciStep m dg target) (some (false, u)) = some (false, w) →
        u ⊆ w ∧ (∀ d ∈ sub, d ∈ w) ∧
        (∀ x ∈ w, x ∉ u →
          (x ≠ target ∧ ∀ y ∈ (alookup dg x).getD [], y ∈ w)) := by
      intro dg target sub
      induction sub with
      | nil =>
        intro u w h
        simp only [List.foldl_nil, Option.some.injEq, Prod.mk.injEq] at h
        rw [← h.2]
        exact ⟨List.Subset.refl _, by simp, fun x hx hnx => absurd hx hnx⟩
      | cons dep rest ihd =>
        intro u w h
        simp only [List.foldl_cons] at h
        by_cases hdt : dep = target
        · rw [show ciStep m dg target (some (false, u)) dep =
              some (true, u) by simp [ciStep, hdt]] at h
          rw [foldl_ciStep_true] at h
          exact absurd h (by simp)
        · rw [show ciStep m dg target (some (false, u)) dep =
              cachedImportsF m dg dep target u by simp [ciStep, hdt]] at h
          cases hq : cachedImportsF m dg dep target u with
          | none => rw [hq, foldl_ciStep_none] at h; exact absurd h (by simp)
          | some q =>
            obtain ⟨rb, v1⟩ := q
            rw [hq] at h
            cases rb with
            | true => rw [foldl_ciStep_true] at h; exact absurd h (by simp)
            | false =>
              have hmono1 : u ⊆ v1 := ciF_mono m dg target dep u false v1 hq
              have hdep1 := ih dg target dep u v1 hq
              have hrest := ihd v1 w h
              refine ⟨hmono1.trans hrest.1, ?_, ?_⟩
              · intro d hd
                rcases List.mem_cons.mp hd with hd1 | hd2
                · exact hrest.1 (hd1 ▸ hdep1.1)
                · exact hrest.2.1 d hd2
              · intro x hxw hxu
                by_cases hxv1 : x ∈ v1
                · obtain ⟨hxt, hsucc⟩ := hdep1.2 x hxv1 hxu
                  exact ⟨hxt, fun y hy => hrest.1 (hsucc y hy)⟩
                · exact hrest.2.2 x hxw hxv1
    intro dg target p v w h
    rw [cachedImportsF] at h
    by_cases hv : v.contains p
    · simp only [hv, if_true, Option.some.injEq, Prod.mk.injEq] at h
      rw [← h.2]
      refine ⟨list_contains_iff.mp hv, ?_⟩
      intro x hx hnx
      exact absurd hx hnx
    · simp only [hv, if_false, Bool.false_eq_true] at h
      by_cases hpt : p = target
      · simp only [hpt, if_true, Option.some.injEq, Prod.mk.injEq] at h
        exact absurd h.1 (by simp)
      · simp only [hpt, if_false] at h
        cases hl : alookup dg p with
        | none =>
          rw [hl] at h
          have h' : some (false, p :: v) = some (false, w) := h
          simp only [Option.some.injEq, Prod.mk.injEq] at h'
          rw [← h'.2]
          refine ⟨List.mem_cons_self _ _, ?_⟩
          intro x hx hnx
          rcases List.mem_cons.mp hx with h1 | h2
          · subst h1
            exact ⟨hpt, by simp [hl]⟩
          · exact absurd h2 hnx
        | some deps =>
          rw [hl] at h
          obtain ⟨hsub, hall, hclosed⟩ := hfold dg target deps (p :: v) w h
          refine ⟨hsub (List.mem_cons_self _ _), ?_⟩
          intro x hx hnx
          by_cases hxp : x = p
          · subst hxp
            refine ⟨hpt, ?_⟩
            intro y hy
            rw [hl] at hy
            exact hall y (by simpa using hy)
          · exact hclosed x hx (by
              intro hmem
              rcases List.mem_cons.mp hmem with h1 | h2
              · exact hxp h1
              · exact hnx h2)

theorem cachedImportsF_run (dg : List (String × List String))
    (p t : String) (v : List String) :
    cachedImportsF (unvisitedCount dg v + 1) dg p t v =
      some (cachedImports dg p t v) := by
  have h := ciF_isSome (unvisitedCount dg v + 1) dg t p v (by omega)
  unfold cachedImports
  cases hc : cachedImportsF (unvisitedCount dg v + 1) dg p t v with
  | none => rw [hc] at h; simp at h
  | some r => simp

theorem cachedImports_true_iff (dg : List (String × List String))
    (p t : String) :
    (cachedImports dg p t []).1 = true ↔ Reaches dg p t := by
  have hrun := cachedImportsF_run dg p t []
  constructor
  · intro h
    have hsome : cachedImportsF (unvisitedCount dg [] + 1) dg p t [] =
        some (true, (cachedImports dg p t []).2) := by
      rw [hrun, ← h]
    exact ciF_sound _ dg t p [] _ hsome
  · intro hr
    by_contra h
    have hfalse : (cachedImports dg p t []).1 = false := by
      cases hb : (cachedImports dg p t []).1
      · rfl
      · exact absurd hb h
    have hsome : cachedImportsF (unvisitedCount dg [] + 1) dg p t [] =
        some (false, (cachedImports dg p t []).2) := by
      rw [hrun, ← hfalse]
    obtain ⟨hpw, hcl⟩ := ciF_closed _ dg t p [] _ hsome
    have hall : ∀ q, Reaches dg p q →
        q ∈ (cachedImports dg p t []).2 := by
      intro q hq
      induction hq with
      | refl => exact hpw
      | tail _ h2 ihq =>
        exact (hcl _ ihq (by simp)).2 _ h2
    obtain ⟨hne, _⟩ := hcl t (hall t hr) (by simp)
    exact hne rfl

/-! ## Characterization of doesPackageBelongToHandler -/

theorem caseTwoLoop_cons (g : GoDepFind) (hd tpkg m : String)
    (rest : List String) :
    caseTwoLoop g hd tpkg (m :: rest) =
      ((cachedMainImportsPackage g m tpkg && handlerDirMatch g m hd) ||
        caseTwoLoop g hd tpkg rest) := by
  rw [caseTwoLoop]
  by_cases hci : cachedMainImportsPackage g m tpkg
  · simp only [hci, if_true, Bool.true_and]
    unfold handlerDirMatch
    cases hc : alookup g.packageCache m with
    | none => simp
    | some po =>
      cases po with
      | none => simp
      | some pkg =>
        cases hrel : goRel g.rootDir pkg.dir with
        | none => simp [hrel]
        | some relPkgDir =>
          by_cases he : goCleanPath relPkgDir = goCleanPath hd
          · simp [hrel, he]
          · simp [hrel, he]
  · simp only [Bool.not_eq_true] at hci
    simp [hci]

theorem caseTwoLoop_true_iff (g : GoDepFind) (hd tpkg : String)
    (l : List String) :
    caseTwoLoop g hd tpkg l = true ↔
      ∃ m ∈ l, cachedMainImportsPackage g m tpkg = true ∧
        handlerDirMatch g m hd = true := by
  induction l with
  | nil => simp [caseTwoLoop]
  | cons m rest ih =>
    rw [caseTwoLoop_cons]
    simp only [Bool.or_eq_true, Bool.and_eq_true, ih]
    constructor
    · rintro (⟨h1, h2⟩ | ⟨x, hx, h1, h2⟩)
      · exact ⟨m, List.mem_cons_self _ _, h1, h2⟩
      · exact ⟨x, List.mem_cons_of_mem _ hx, h1, h2⟩
    · rintro ⟨x, hx, h1, h2⟩
      rcases List.mem_cons.mp hx with hx1 | hx2
      · exact Or.inl ⟨hx1 ▸ h1, hx1 ▸ h2⟩
      · exact Or.inr ⟨x, hx2, h1, h2⟩

theorem isMainPackage_iff {g : GoDepFind} {u : String} :
    isMainPackage g u = true ↔ u ∈ g.mainPackages := by
  unfold isMainPackage
  exact contains_iff_mem

theorem dpbh_eq_spec (g : GoDepFind) (mainRel E U : String)
    (hEmem : E ∈ g.mainPackages)
    (hEdir : handlerDirMatch g E (goDir mainRel) = true)
    (huniq : ∀ M ∈ g.mainPackages,
      handlerDirMatch g M (goDir mainRel) = true → M = E)
    (hcomplete : ∀ M ∈ g.mainPackages, ∃ pkg rel,
      alookup g.packageCache M = some (some pkg) ∧
        goRel g.rootDir pkg.dir = some rel) :
    (doesPackageBelongToHandler g U mainRel = true ↔
      (U = E ∨ (U ∉ g.mainPackages ∧ Reaches g.dependencyGraph E U))) := by
  unfold doesPackageBelongToHandler
  by_cases hmain : isMainPackage g U
  · have hUmem : U ∈ g.mainPackages := isMainPackage_iff.mp hmain
    obtain ⟨pkg, rel, hc, hrel⟩ := hcomplete U hUmem
    simp only [hmain, if_true, hc, hrel]
    have hlhs : decide (goCleanPath rel = goCleanPath (goDir mainRel)) =
        handlerDirMatch g U (goDir mainRel) := by
      simp [handlerDirMatch, hc, hrel]
    rw [hlhs]
    by_cases hUE : U = E
    · subst hUE
      simp [hEdir]
    · constructor
      · intro hdm
        exact absurd (huniq U hUmem hdm) hUE
      · rintro (h | ⟨hnm, _⟩)
        · exact absurd h hUE
        · exact absurd hUmem hnm
  · have hUnot : U ∉ g.mainPackages := by
      intro hmem
      exact hmain (isMainPackage_iff.mpr hmem)
    simp only [hmain, if_false, Bool.false_eq_true]
    rw [caseTwoLoop_true_iff]
    have hUE : U ≠ E := fun h => hUnot (h ▸ hEmem)
    constructor
    · rintro ⟨m, hm, h1, h2⟩
      have hmE : m = E := huniq m hm h2
      subst hmE
      refine Or.inr ⟨hUnot, ?_⟩
      exact (cachedImports_true_iff g.dependencyGraph m U).mp h1
    · rintro (h | ⟨_, hr⟩)
      · exact absurd h hUE
      · exact ⟨E, hEmem, (cachedImports_true_iff g.dependencyGraph E U).mpr hr,
          hEdir⟩

/-! ## Branch lemmas for ThisFileIsMine -/

theorem ThisFileIsMine_package_path (env : Env) (g : GoDepFind)
    (mainRel fileAbsPath event : String)
    (h1 : fileAbsPath ≠ "") (h2 : mainRel ≠ "")
    (h3 : statOk env (handlerMainAbs g mainRel) = true)
    (h4 : goExt (goBase (normalizeFileAbs env g fileAbsPath)) = ".go" →
      env.isValidGoFile (normalizeFileAbs env g fileAbsPath) = some true)
    (h5 : isOwnMainFile env g mainRel fileAbsPath = false) :
    ThisFileIsMine env g mainRel fileAbsPath event =
      checkPackageBasedOwnership env g mainRel
        (normalizeFileAbs env g fileAbsPath)
        (goBase (normalizeFileAbs env g fileAbsPath)) := by
  unfold ThisFileIsMine
  rw [if_neg h1, if_neg h2]
  simp only [h3, if_true, not_true, ite_false]
  by_cases hext : goExt (goBase (normalizeFileAbs env g fileAbsPath)) = ".go"
  · rw [if_pos hext, h4 hext]
    simp [h5]
  · rw [if_neg hext]
    simp [h5]

theorem ThisFileIsMine_main_path (env : Env) (g : GoDepFind)
    (mainRel fileAbsPath event : String)
    (h1 : fileAbsPath ≠ "") (h2 : mainRel ≠ "")
    (h3 : statOk env (handlerMainAbs g mainRel) = true)
    (h4 : goExt (goBase (normalizeFileAbs env g fileAbsPath)) = ".go" →
      env.isValidGoFile (normalizeFileAbs env g fileAbsPath) = some true)
    (h5 : isOwnMainFile env g mainRel fileAbsPath = true) :
    ThisFileIsMine env g mainRel fileAbsPath event =
      (match updateCacheForFileWithContext env g
          (goBase (normalizeFileAbs env g fileAbsPath))
          (normalizeFileAbs env g fileAbsPath) event mainRel with
       | (g1, some e) => (g1, false, some (.cacheUpdateFailed e))
       | (g1, none) => (g1, true, none)) := by
  unfold ThisFileIsMine
  rw [if_neg h1, if_neg h2]
  simp only [h3, if_true, not_true, ite_false]
  by_cases hext : goExt (goBase (normalizeFileAbs env g fileAbsPath)) = ".go"
  · rw [if_pos hext, h4 hext]
    simp [h5]
  · rw [if_neg hext]
    simp [h5]

/-! ## Preservation and stability lemmas for the cache lifecycle -/

theorem rebuildCache_cases (env : Env) (g : GoDepFind) :
    ((rebuildCache env g).2 ≠ none → (rebuildCache env g).1 = g) ∧
    ((rebuildCache env g).2 = none →
      (rebuildCache env g).1.cachedModule = true) ∧
    (rebuildCache env g).1.rootDir = g.rootDir ∧
    (rebuildCache env g).1.testImports = g.testImports := by
  unfold rebuildCache listPackages
  cases env.goList "./..." with
  | none => exact ⟨fun _ => rfl, by simp, rfl, rfl⟩
  | some allPaths =>
    dsimp only
    cases getPackages env g.rootDir allPaths with
    | error e => exact ⟨fun _ => rfl, by simp, rfl, rfl⟩
    | ok packages => exact ⟨fun hx => absurd rfl hx, fun _ => rfl, rfl, rfl⟩

theorem rebuildCache_congr (env : Env) (g h : GoDepFind)
    (hr : g.rootDir = h.rootDir) (ht : g.testImports = h.testImports) :
    (rebuildCache env g).2 = (rebuildCache env h).2 ∧
    ((rebuildCache env g).2 = none →
      (rebuildCache env g).1 = (rebuildCache env h).1) := by
  unfold rebuildCache listPackages
  rw [hr, ht]
  cases env.goList "./..." with
  | none => exact ⟨rfl, fun hx => absurd hx (by simp)⟩
  | some allPaths =>
    dsimp only
    cases getPackages env h.rootDir allPaths with
    | error e => exact ⟨rfl, fun hx => absurd hx (by simp)⟩
    | ok packages => exact ⟨rfl, fun _ => rfl⟩

theorem ensure_cached (env : Env) (g : GoDepFind)
    (h : g.cachedModule = true) :
    ensureCacheInitialized env g = (g, none) := by
  unfold ensureCacheInitialized
  simp [h]

theorem ensure_cases (env : Env) (g : GoDepFind) :
    ((ensureCacheInitialized env g).2 = none →
      (ensureCacheInitialized env g).1.cachedModule = true) ∧
    ((ensureCacheInitialized env g).2 ≠ none →
      (ensureCacheInitialized env g).1 = g) ∧
    (ensureCacheInitialized env g).1.rootDir = g.rootDir ∧
    (ensureCacheInitialized env g).1.testImports = g.testImports := by
  unfold ensureCacheInitialized
  by_cases hc : g.cachedModule
  · simp [hc]
  · simp only [hc, if_false, Bool.false_eq_true]
    obtain ⟨h1, h2, h3, h4⟩ := rebuildCache_cases env g
    exact ⟨h2, h1, h3, h4⟩

theorem isSameFile_congr (env : Env) (g h : GoDepFind)
    (hr : g.rootDir = h.rootDir) (a b : String) :
    isSameFile env g a b = isSameFile env h a b := by
  unfold isSameFile
  rw [hr]

theorem invalidateOnly_spec (g : GoDepFind) (fn : String) :
    invalidatePackageCacheOnly g fn =
      ({ g with packageCache := ((alookup g.fileToPackages fn).getD
          []).foldl (fun pc pkg => adelete pc pkg) g.packageCache },
        none) := rfl

theorem invalStep_fold_pres (pkgs : List String) (g : GoDepFind) :
    (pkgs.foldl invalStep g).rootDir = g.rootDir ∧
    (pkgs.foldl invalStep g).testImports = g.testImports ∧
    (pkgs.foldl invalStep g).cachedModule = g.cachedModule ∧
    (pkgs.foldl invalStep g).fileToPackages = g.fileToPackages := by
  induction pkgs generalizing g with
  | nil => exact ⟨rfl, rfl, rfl, rfl⟩
  | cons p ps ih =>
    simpa [List.foldl_cons, invalStep] using ih (invalStep g p)

theorem invalidatePackageCache_spec (g : GoDepFind) (fn : String) :
    (invalidatePackageCache g fn).2 = none ∧
    (invalidatePackageCache g fn).1.rootDir = g.rootDir ∧
    (invalidatePackageCache g fn).1.testImports = g.testImports ∧
    (invalidatePackageCache g fn).1.cachedModule = g.cachedModule := by
  unfold invalidatePackageCache
  obtain ⟨p1, p2, p3, _⟩ :=
    invalStep_fold_pres ((alookup g.fileToPackages fn).getD []) g
  exact ⟨rfl, p1, p2, p3⟩

theorem fpcfbp_state (env : Env) (g : GoDepFind) (fp : String) :
    (findPackageContainingFileByPath env g fp).1 =
      (ensureCacheInitialized env g).1 := by
  unfold findPackageContainingFileByPath
  split
  next g1 e heq => rw [heq]
  next g1 heq =>
    rw [heq]
    dsimp only
    split
    · rfl
    · split
      · rfl
      · split
        · rfl
        · split
          · rfl
          · rfl

theorem fpcfbp_pres (env : Env) (g : GoDepFind) (fp : String) :
    (findPackageContainingFileByPath env g fp).1.rootDir = g.rootDir ∧
    (findPackageContainingFileByPath env g fp).1.testImports =
      g.testImports ∧
    (g.cachedModule = true →
      (findPackageContainingFileByPath env g fp).1.cachedModule = true) := by
  rw [fpcfbp_state]
  obtain ⟨_, _, e3, e4⟩ := ensure_cases env g
  refine ⟨e3, e4, fun hc => ?_⟩
  rw [ensure_cached env g hc]
  exact hc

theorem handleFileRemove_spec (env : Env) (g : GoDepFind)
    (fn fp : String) :
    (handleFileRemove env g fn fp).2 = none ∧
    (handleFileRemove env g fn fp).1.rootDir = g.rootDir ∧
    (handleFileRemove env g fn fp).1.testImports = g.testImports ∧
    (g.cachedModule = true →
      (handleFileRemove env g fn fp).1.cachedModule = true) := by
  unfold handleFileRemove
  by_cases hfp : fp = ""
  · simp only [hfp, ne_eq, not_true_eq_false, if_false, ite_false]
    obtain ⟨i1, i2, i3, i4⟩ := invalidatePackageCache_spec g fn
    exact ⟨i1, i2, i3, fun hc => by rw [i4]; exact hc⟩
  · simp only [ne_eq, hfp, not_false_eq_true, if_true, ite_true]
    obtain ⟨f1, f2, f3⟩ := fpcfbp_pres env
      { g with filePathToPackage :=
          adelete g.filePathToPackage (goAbs env.cwd fp) } fp
    cases hf : findPackageContainingFileByPath env
        { g with filePathToPackage :=
          adelete g.filePathToPackage (goAbs env.cwd fp) } fp with
    | mk ga res =>
      rw [hf] at f1 f2 f3
      cases res with
      | error e0 =>
        dsimp only
        obtain ⟨i1, i2, i3, i4⟩ := invalidatePackageCache_spec ga fn
        refine ⟨i1, ?_, ?_, fun hc => ?_⟩
        · rw [i2]; exact f1
        · rw [i3]; exact f2
        · rw [i4]; exact f3 hc
      | ok pkg =>
        dsimp only
        by_cases hp : pkg = ""
        · simp only [ne_eq, hp, not_true_eq_false, if_false, ite_false]
          obtain ⟨i1, i2, i3, i4⟩ := invalidatePackageCache_spec ga fn
          refine ⟨i1, ?_, ?_, fun hc => ?_⟩
          · rw [i2]; exact f1
          · rw [i3]; exact f2
          · rw [i4]; exact f3 hc
        · simp only [ne_eq, hp, not_false_eq_true, if_true, ite_true]
          obtain ⟨i1, i2, i3, i4⟩ := invalidatePackageCache_spec
            { ga with fileToPackages := (ainsert ga.fileToPackages fn
                (removeString ((alookup ga.fileToPackages fn).getD [])
                  pkg)) } fn
          refine ⟨i1, ?_, ?_, fun hc => ?_⟩
          · rw [i2]; exact f1
          · rw [i3]; exact f2
          · rw [i4]; exact f3 hc


theorem invalidateOnly_pres (g : GoDepFind) (fn : String) :
    (invalidatePackageCacheOnly g fn).2 = none ∧
    (invalidatePackageCacheOnly g fn).1.rootDir = g.rootDir ∧
    (invalidatePackageCacheOnly g fn).1.cachedModule = g.cachedModule :=
  ⟨rfl, rfl, rfl⟩

theorem update_cached (env : Env) (g : GoDepFind)
    (fn fp ev mr : String) (hc : g.cachedModule = true) :
    updateCacheForFileWithContext env g fn fp ev mr =
      (if ev = "write" then
        if mr ≠ "" ∧ isSameFile env g fp mr then rebuildCache env g
        else invalidatePackageCacheOnly g fn
       else if ev = "create" then handleFileCreate env g fn fp
       else if ev = "remove" then handleFileRemove env g fn fp
       else if ev = "rename" then
         match handleFileRemove env g fn fp with
         | (g2, some e) => (g2, some e)
         | (g2, none) => handleFileCreate env g2 fn fp
       else (g, none)) := by
  unfold updateCacheForFileWithContext
  rw [ensure_cached env g hc]
  rfl

theorem update_stable (env : Env) (g : GoDepFind)
    (fileName filePath event mainRel : String)
    (hev1 : event ≠ "create") (hev2 : event ≠ "rename") :
    (updateCacheForFileWithContext env
      (updateCacheForFileWithContext env g fileName filePath event
        mainRel).1
      fileName filePath event mainRel).2 =
    (updateCacheForFileWithContext env g fileName filePath event
      mainRel).2 := by
  cases he : ensureCacheInitialized env g with
  | mk g1 e1 =>
    cases e1 with
    | some e0 =>
      have hg1 : g1 = g := by
        have t := (ensure_cases env g).2.1
        rw [he] at t
        exact t (by simp)
      have hfirst : updateCacheForFileWithContext env g fileName filePath
          event mainRel = (g, some e0) := by
        unfold updateCacheForFileWithContext
        rw [he, hg1]
      rw [hfirst, hfirst]
    | none =>
      have hg1c : g1.cachedModule = true := by
        have t := (ensure_cases env g).1
        rw [he] at t
        exact t rfl
      have hg1r : g1.rootDir = g.rootDir := by
        have t := (ensure_cases env g).2.2.1
        rw [he] at t
        exact t
      have hg1t : g1.testImports = g.testImports := by
        have t := (ensure_cases env g).2.2.2
        rw [he] at t
        exact t
      have hfirst : updateCacheForFileWithContext env g fileName filePath
          event mainRel =
          (if event = "write" then
            if mainRel ≠ "" ∧ isSameFile env g1 filePath mainRel then
              rebuildCache env g1
            else invalidatePackageCacheOnly g1 fileName
           else if event = "create" then
             handleFileCreate env g1 fileName filePath
           else if event = "remove" then
             handleFileRemove env g1 fileName filePath
           else if event = "rename" then
             match handleFileRemove env g1 fileName filePath with
             | (g2, some e) => (g2, some e)
             | (g2, none) => handleFileCreate env g2 fileName filePath
           else (g1, none)) := by
        unfold updateCacheForFileWithContext
        rw [he]
        rfl
      rw [hfirst]
      by_cases hw : event = "write"
      · rw [if_pos hw]
        by_cases hcond : mainRel ≠ "" ∧ isSameFile env g1 filePath mainRel
        · rw [if_pos hcond]
          cases hr : rebuildCache env g1 with
          | mk gR eR =>
            cases eR with
            | none =>
              have hRc : gR.cachedModule = true := by
                have t := (rebuildCache_cases env g1).2.1
                rw [hr] at t
                exact t rfl
              have hRr : gR.rootDir = g1.rootDir := by
                have t := (rebuildCache_cases env g1).2.2.1
                rw [hr] at t
                exact t
              have hRt : gR.testImports = g1.testImports := by
                have t := (rebuildCache_cases env g1).2.2.2
                rw [hr] at t
                exact t
              have hfst : ((gR, (none : Option GoErr))).1 = gR := rfl
              rw [hfst]
              rw [update_cached env gR fileName filePath event mainRel hRc]
              have hcond2 : mainRel ≠ "" ∧
                  isSameFile env gR filePath mainRel := by
                refine ⟨hcond.1, ?_⟩
                rw [isSameFile_congr env gR g1 hRr]
                exact hcond.2
              rw [if_pos hw, if_pos hcond2]
              have hcg := (rebuildCache_congr env gR g1 hRr hRt).1
              rw [hcg, hr]
            | some eR0 =>
              have hR1 : gR = g1 := by
                have t := (rebuildCache_cases env g1).1
                rw [hr] at t
                exact t (by simp)
              have hfst : ((gR, some eR0)).1 = gR := rfl
              rw [hfst, hR1]
              rw [update_cached env g1 fileName filePath event mainRel
                hg1c]
              rw [if_pos hw, if_pos hcond, hr]
        · rw [if_neg hcond]
          cases hi : invalidatePackageCacheOnly g1 fileName with
          | mk gI eI =>
            obtain ⟨i1, i2, i3⟩ := invalidateOnly_pres g1 fileName
            rw [hi] at i1 i2 i3
            have heI : eI = none := i1
            subst heI
            have hIc : gI.cachedModule = true := by rw [i3]; exact hg1c
            have hfst : ((gI, (none : Option GoErr))).1 = gI := rfl
            rw [hfst]
            rw [update_cached env gI fileName filePath event mainRel hIc]
            have hcond2 : ¬ (mainRel ≠ "" ∧
                isSameFile env gI filePath mainRel) := by
              intro hx
              apply hcond
              refine ⟨hx.1, ?_⟩
              have hsf : isSameFile env g1 filePath mainRel = true := by
                rw [← isSameFile_congr env gI g1 i2 filePath mainRel]
                exact hx.2
              exact hsf
            rw [if_pos hw, if_neg hcond2]
            exact (invalidateOnly_pres gI fileName).1
      · rw [if_neg hw, if_neg hev1]
        by_cases hrm : event = "remove"
        · rw [if_pos hrm]
          obtain ⟨s1, s2, s3, s4⟩ :=
            handleFileRemove_spec env g1 fileName filePath
          cases hs : handleFileRemove env g1 fileName filePath with
          | mk g2 e2 =>
            rw [hs] at s1 s2 s3 s4
            have he2 : e2 = none := s1
            subst he2
            have hg2c : g2.cachedModule = true := s4 hg1c
            have hfst : ((g2, (none : Option GoErr))).1 = g2 := rfl
            rw [hfst]
            rw [update_cached env g2 fileName filePath event mainRel hg2c]
            rw [if_neg hw, if_neg hev1, if_pos hrm]
            exact (handleFileRemove_spec env g2 fileName filePath).1
        · rw [if_neg hrm, if_neg hev2]
          have hfst : ((g1, (none : Option GoErr))).1 = g1 := rfl
          rw [hfst]
          rw [update_cached env g1 fileName filePath event mainRel hg1c]
          rw [if_neg hw, if_neg hev1, if_neg hrm, if_neg hev2]

theorem fpf_after_ensure (env : Env) (g g1 : GoDepFind)
    (a b : String) (he : ensureCacheInitialized env g = (g1, none)) :
    findPackageForFile env g a b = (g1, .ok (fpfLookup env g1 a b)) := by
  unfold findPackageForFile fpfLookup
  rw [he]
  dsimp only
  cases h1 : alookup g1.filePathToPackage a with
  | some pkg => rfl
  | none =>
    cases h2 : (match goRel env.cwd a with
                | some relPath => alookup g1.filePathToPackage relPath
                | none => none) with
    | some pkg => rfl
    | none =>
      cases h3 : (alookup g1.fileToPackages b).getD [] with
      | nil => rfl
      | cons p ps => rfl

theorem fpf_cached (env : Env) (g : GoDepFind) (a b : String)
    (hc : g.cachedModule = true) :
    findPackageForFile env g a b = (g, .ok (fpfLookup env g a b)) :=
  fpf_after_ensure env g g a b (ensure_cached env g hc)

theorem fpf_stable (env : Env) (g : GoDepFind) (a b : String) :
    findPackageForFile env (findPackageForFile env g a b).1 a b =
      findPackageForFile env g a b := by
  cases he : ensureCacheInitialized env g with
  | mk g1 e1 =>
    cases e1 with
    | some e0 =>
      have hg1 : g1 = g := by
        have t := (ensure_cases env g).2.1
        rw [he] at t
        exact t (by simp)
      have hfirst : findPackageForFile env g a b = (g, .error e0) := by
        unfold findPackageForFile
        rw [he, hg1]
      rw [hfirst]
      exact hfirst
    | none =>
      have hg1c : g1.cachedModule = true := by
        have t := (ensure_cases env g).1
        rw [he] at t
        exact t rfl
      have hfirst := fpf_after_ensure env g g1 a b he
      rw [hfirst]
      exact fpf_cached env g1 a b hg1c

theorem checkPBO_after_ensure (env : Env) (g g1 : GoDepFind)
    (mainRel a b : String)
    (he : ensureCacheInitialized env g = (g1, none)) :
    checkPackageBasedOwnership env g mainRel a b =
      (g1, (if fpfLookup env g1 a b = "" then false
            else doesPackageBelongToHandler g1 (fpfLookup env g1 a b)
              mainRel), none) := by
  unfold checkPackageBasedOwnership
  rw [fpf_after_ensure env g g1 a b he]
  by_cases hv : fpfLookup env g1 a b = ""
  · rw [if_pos hv]
    dsimp only
    rw [if_pos hv]
  · rw [if_neg hv]
    dsimp only
    rw [if_neg hv]

theorem checkPBO_cached (env : Env) (g : GoDepFind)
    (mainRel a b : String) (hc : g.cachedModule = true) :
    checkPackageBasedOwnership env g mainRel a b =
      (g, (if fpfLookup env g a b = "" then false
           else doesPackageBelongToHandler g (fpfLookup env g a b)
             mainRel), none) :=
  checkPBO_after_ensure env g g mainRel a b (ensure_cached env g hc)

theorem checkPBO_stable (env : Env) (g : GoDepFind)
    (mainRel a b : String) :
    checkPackageBasedOwnership env
      (checkPackageBasedOwnership env g mainRel a b).1 mainRel a b =
      checkPackageBasedOwnership env g mainRel a b := by
  cases he : ensureCacheInitialized env g with
  | mk g1 e1 =>
    cases e1 with
    | some e0 =>
      have hg1 : g1 = g := by
        have t := (ensure_cases env g).2.1
        rw [he] at t
        exact t (by simp)
      have hfirst : checkPackageBasedOwnership env g mainRel a b =
          (g, false, some e0) := by
        unfold checkPackageBasedOwnership findPackageForFile
        rw [he, hg1]
      rw [hfirst]
      exact hfirst
    | none =>
      have hg1c : g1.cachedModule = true := by
        have t := (ensure_cases env g).1
        rw [he] at t
        exact t rfl
      have hfirst := checkPBO_after_ensure env g g1 mainRel a b he
      rw [hfirst]
      exact checkPBO_cached env g1 mainRel a b hg1c

theorem checkPBO_pres (env : Env) (g : GoDepFind) (mainRel a b : String) :
    (checkPackageBasedOwnership env g mainRel a b).1.rootDir = g.rootDir ∧
    (checkPackageBasedOwnership env g mainRel a b).1.testImports =
      g.testImports := by
  cases he : ensureCacheInitialized env g with
  | mk g1 e1 =>
    have hr : g1.rootDir = g.rootDir := by
      have t := (ensure_cases env g).2.2.1
      rw [he] at t
      exact t
    have ht : g1.testImports = g.testImports := by
      have t := (ensure_cases env g).2.2.2
      rw [he] at t
      exact t
    cases e1 with
    | some e0 =>
      have hfirst : checkPackageBasedOwnership env g mainRel a b =
          (g1, false, some e0) := by
        unfold checkPackageBasedOwnership findPackageForFile
        rw [he]
      rw [hfirst]
      exact ⟨hr, ht⟩
    | none =>
      rw [checkPBO_after_ensure env g g1 mainRel a b he]
      exact ⟨hr, ht⟩

theorem normalizeFileAbs_congr (env : Env) (g h : GoDepFind)
    (hr : g.rootDir = h.rootDir) (p : String) :
    normalizeFileAbs env g p = normalizeFileAbs env h p := by
  unfold normalizeFileAbs
  rw [hr]

theorem handlerMainAbs_congr (g h : GoDepFind)
    (hr : g.rootDir = h.rootDir) (p : String) :
    handlerMainAbs g p = handlerMainAbs h p := by
  unfold handlerMainAbs
  rw [hr]

theorem isOwnMainFile_congr (env : Env) (g h : GoDepFind)
    (hr : g.rootDir = h.rootDir) (mr p : String) :
    isOwnMainFile env g mr p = isOwnMainFile env h mr p := by
  unfold isOwnMainFile normalizeFileAbs
  rw [hr]

theorem handleFileCreate_pres (env : Env) (g : GoDepFind)
    (fn fp : String) :
    (handleFileCreate env g fn fp).1.rootDir = g.rootDir ∧
    (handleFileCreate env g fn fp).1.testImports = g.testImports := by
  unfold handleFileCreate
  obtain ⟨f1, f2, _⟩ := fpcfbp_pres env g fp
  cases hf : findPackageContainingFileByPath env g fp with
  | mk ga res =>
    rw [hf] at f1 f2
    cases res with
    | error e0 => exact ⟨f1, f2⟩
    | ok pkg =>
      dsimp only
      by_cases hp : pkg = ""
      · simp only [ne_eq, hp, not_true_eq_false, if_false, ite_false]
        exact ⟨f1, f2⟩
      · simp only [ne_eq, hp, not_false_eq_true, if_true, ite_true]
        split
        · obtain ⟨_, i2, i3, _⟩ := invalidatePackageCache_spec _ fn
          exact ⟨by rw [i2]; exact f1, by rw [i3]; exact f2⟩
        · obtain ⟨_, i2, i3, _⟩ := invalidatePackageCache_spec _ fn
          exact ⟨by rw [i2]; exact f1, by rw [i3]; exact f2⟩

theorem update_pres (env : Env) (g : GoDepFind) (fn fp ev mr : String) :
    (updateCacheForFileWithContext env g fn fp ev mr).1.rootDir =
      g.rootDir ∧
    (updateCacheForFileWithContext env g fn fp ev mr).1.testImports =
      g.testImports := by
  unfold updateCacheForFileWithContext rescanMainPackageDependencies
  cases he : ensureCacheInitialized env g with
  | mk g1 e1 =>
    have hr : g1.rootDir = g.rootDir := by
      have t := (ensure_cases env g).2.2.1
      rw [he] at t
      exact t
    have ht : g1.testImports = g.testImports := by
      have t := (ensure_cases env g).2.2.2
      rw [he] at t
      exact t
    cases e1 with
    | some e0 => exact ⟨hr, ht⟩
    | none =>
      dsimp only
      by_cases hw : ev = "write"
      · rw [if_pos hw]
        by_cases hcond : mr ≠ "" ∧ isSameFile env g1 fp mr
        · rw [if_pos hcond]
          obtain ⟨_, _, r3, r4⟩ := rebuildCache_cases env g1
          exact ⟨by rw [r3]; exact hr, by rw [r4]; exact ht⟩
        · rw [if_neg hcond]
          obtain ⟨_, i2, _⟩ := invalidateOnly_pres g1 fn
          refine ⟨by rw [i2]; exact hr, ?_⟩
          exact ht
      · rw [if_neg hw]
        by_cases hc2 : ev = "create"
        · rw [if_pos hc2]
          obtain ⟨c1, c2⟩ := handleFileCreate_pres env g1 fn fp
          exact ⟨by rw [c1]; exact hr, by rw [c2]; exact ht⟩
        · rw [if_neg hc2]
          by_cases hc3 : ev = "remove"
          · rw [if_pos hc3]
            obtain ⟨_, s2, s3, _⟩ := handleFileRemove_spec env g1 fn fp
            exact ⟨by rw [s2]; exact hr, by rw [s3]; exact ht⟩
          · rw [if_neg hc3]
            by_cases hc4 : ev = "rename"
            · rw [if_pos hc4]
              obtain ⟨_, s2, s3, _⟩ := handleFileRemove_spec env g1 fn fp
              cases hs : handleFileRemove env g1 fn fp with
              | mk g2 e2 =>
                rw [hs] at s2 s3
                cases e2 with
                | some e3 => exact ⟨s2.trans hr, s3.trans ht⟩
                | none =>
                  dsimp only
                  obtain ⟨c1, c2⟩ := handleFileCreate_pres env g2 fn fp
                  refine ⟨?_, ?_⟩
                  · rw [c1, s2]; exact hr
                  · rw [c2, s3]; exact ht
            · rw [if_neg hc4]
              exact ⟨hr, ht⟩

theorem tfim_pres (env : Env) (g : GoDepFind) (mr fp ev : String) :
    (ThisFileIsMine env g mr fp ev).1.rootDir = g.rootDir ∧
    (ThisFileIsMine env g mr fp ev).1.testImports = g.testImports := by
  unfold ThisFileIsMine
  by_cases h1 : fp = ""
  · simp [h1]
  · rw [if_neg h1]
    by_cases h2 : mr = ""
    · simp [h2]
    · rw [if_neg h2]
      dsimp only
      by_cases h3 : statOk env (handlerMainAbs g mr) = true
      · rw [if_neg (not_not_intro h3)]
        by_cases hext : goExt (goBase (normalizeFileAbs env g fp)) = ".go"
        · rw [if_pos hext]
          cases hval : env.isValidGoFile (normalizeFileAbs env g fp) with
          | none => exact ⟨rfl, rfl⟩
          | some b =>
            cases b with
            | false => exact ⟨rfl, rfl⟩
            | true =>
              dsimp only
              by_cases h5 : isOwnMainFile env g mr fp = true
              · rw [if_pos h5]
                cases hu : updateCacheForFileWithContext env g
                    (goBase (normalizeFileAbs env g fp))
                    (normalizeFileAbs env g fp) ev mr with
                | mk gu eu =>
                  obtain ⟨u1, u2⟩ := update_pres env g
                    (goBase (normalizeFileAbs env g fp))
                    (normalizeFileAbs env g fp) ev mr
                  rw [hu] at u1 u2
                  cases eu with
                  | some e0 => exact ⟨u1, u2⟩
                  | none => exact ⟨u1, u2⟩
              · rw [if_neg h5]
                exact checkPBO_pres env g mr _ _
        · rw [if_neg hext]
          dsimp only
          by_cases h5 : isOwnMainFile env g mr fp = true
          · rw [if_pos h5]
            cases hu : updateCacheForFileWithContext env g
                (goBase (normalizeFileAbs env g fp))
                (normalizeFileAbs env g fp) ev mr with
            | mk gu eu =>
              obtain ⟨u1, u2⟩ := update_pres env g
                (goBase (normalizeFileAbs env g fp))
                (normalizeFileAbs env g fp) ev mr
              rw [hu] at u1 u2
              cases eu with
              | some e0 => exact ⟨u1, u2⟩
              | none => exact ⟨u1, u2⟩
          · rw [if_neg h5]
            exact checkPBO_pres env g mr _ _
      · rw [if_pos (by simpa using h3)]
        exact ⟨rfl, rfl⟩

/-! ## Auxiliary facts for the claims -/

theorem reaches_nil {a b : String} (h : Reaches [] a b) : a = b := by
  induction h with
  | refl => rfl
  | tail _ h2 _ => exact absurd h2 (by simp [depEdge, alookup])

theorem getPackagesLoop_ok_iff (env : Env) (root : String) :
    ∀ (paths : List String) (acc : List (String × Option Package)),
      ((getPackagesLoop env root paths acc).toOption.isSome = true ↔
        ∀ p ∈ paths, unitImportFails env root p = false) := by
  intro paths
  induction paths with
  | nil => intro acc; simp [getPackagesLoop, Except.toOption]
  | cons p rest ih =>
    intro acc
    unfold getPackagesLoop
    cases hm : importAttemptModule env root p with
    | some pkg =>
      rw [ih]
      constructor
      · intro hall q hq
        rcases List.mem_cons.mp hq with h1 | h2
        · subst h1
          unfold unitImportFails
          simp [hm]
        · exact hall q h2
      · intro hall q hq
        exact hall q (List.mem_cons_of_mem _ hq)
    | none =>
      cases hd : importAttemptDir env root p with
      | some pkg =>
        rw [ih]
        constructor
        · intro hall q hq
          rcases List.mem_cons.mp hq with h1 | h2
          · subst h1
            unfold unitImportFails
            simp [hd]
          · exact hall q h2
        · intro hall q hq
          exact hall q (List.mem_cons_of_mem _ hq)
      | none =>
        cases hp : env.importPkg p with
        | some pkg =>
          rw [ih]
          constructor
          · intro hall q hq
            rcases List.mem_cons.mp hq with h1 | h2
            · subst h1
              unfold unitImportFails
              simp [hp]
            · exact hall q h2
          · intro hall q hq
            exact hall q (List.mem_cons_of_mem _ hq)
        | none =>
          constructor
          · intro habs
            simp [Except.toOption] at habs
          · intro hall
            have hfail := hall p (List.mem_cons_self _ _)
            unfold unitImportFails at hfail
            rw [hm, hd, hp] at hfail
            simp at hfail

/-! ## Claims -/

/-- C9: for every dependency-graph adjacency map, including maps whose
edge relation contains cycles, the fuel-indexed traversal run with fuel
one more than the number of units never exhausts its fuel and computes
the total function cachedImports: the visited set bounds the recursion
depth by the number of units. -/
theorem c9_traversal_terminates (dg : List (String × List String))
    (p t : String) (v : List String) :
    cachedImportsF ((akeys dg).length + 1) dg p t v =
      some (cachedImports dg p t v) := by
  have hcount : unvisitedCount dg v ≤ (akeys dg).length :=
    List.length_filter_le _ _
  exact ciF_fuel_mono _ _ (by omega) dg t p v _ (cachedImportsF_run dg p t v)

/-- C6 (amended): a metadata-extraction failure for a single unit (all
three import attempts failing) aborts the whole getPackages pass with an
error rather than omitting the unit: the pass succeeds exactly when
every listed unit is importable by some attempt. -/
theorem c6_single_unit_failure_aborts (env : Env) (root : String)
    (paths : List String) :
    ((getPackages env root paths).toOption.isSome = true ↔
      ∀ p ∈ paths, unitImportFails env root p = false) :=
  getPackagesLoop_ok_iff env root paths []

/-- C6 counterexample: with a lister reporting the units proj/appA and
proj/bad, where proj/appA is importable and proj/bad fails every
attempt, getPackages aborts with an error instead of indexing proj/appA
and omitting proj/bad, and the full rebuild propagates the failure
leaving the state untouched. -/
theorem c6_counterexample :
    getPackages envC6 "/p" ["proj/appA", "proj/bad"] =
      .error (.importFailed "proj/bad") ∧
    (importAttemptModule envC6 "/p" "proj/appA").isSome = true ∧
    rebuildCache envC6 (New "/p") =
      (New "/p", some (.wrapGetPackages (.importFailed "proj/bad"))) := by
  refine ⟨rfl, rfl, by decide⟩

/-- C6 witness: instantiates the amended claim on the concrete
environment envC6, where the failing unit proj/bad makes the pass fail. -/
theorem c6_witness :
    ¬ ((getPackages envC6 "/p" ["proj/appA", "proj/bad"]).toOption.isSome
      = true) := by
  intro hok
  have hall :=
    (c6_single_unit_failure_aborts envC6 "/p"
      ["proj/appA", "proj/bad"]).mp hok
  have hbad := hall "proj/bad" (by simp)
  revert hbad
  decide

/-- C8: the file-to-unit resolver tries the exact absolute-path mapping
first; only when no exact or relative path entry exists does it fall
back to the basename multimap, and with several candidates it returns
the first recorded one. -/
theorem c8_lookup_order (env : Env) (g : GoDepFind)
    (fileAbsPath fileName : String) (hready : g.cachedModule = true) :
    (∀ pkg, alookup g.filePathToPackage fileAbsPath = some pkg →
      findPackageForFile env g fileAbsPath fileName = (g, .ok pkg)) ∧
    (alookup g.filePathToPackage fileAbsPath = none →
      ∀ rp pkg, goRel env.cwd fileAbsPath = some rp →
        alookup g.filePathToPackage rp = some pkg →
        findPackageForFile env g fileAbsPath fileName = (g, .ok pkg)) ∧
    (alookup g.filePathToPackage fileAbsPath = none →
      (match goRel env.cwd fileAbsPath with
       | some rp => alookup g.filePathToPackage rp
       | none => none) = none →
      ∀ p ps, (alookup g.fileToPackages fileName).getD [] = p :: ps →
        findPackageForFile env g fileAbsPath fileName = (g, .ok p)) := by
  refine ⟨?_, ?_, ?_⟩
  · intro pkg hpkg
    rw [fpf_cached env g _ _ hready]
    have hv : fpfLookup env g fileAbsPath fileName = pkg := by
      unfold fpfLookup
      rw [hpkg]
    rw [hv]
  · intro hA rp pkg hrel hrp
    rw [fpf_cached env g _ _ hready]
    have hv : fpfLookup env g fileAbsPath fileName = pkg := by
      unfold fpfLookup
      rw [hA]
      dsimp only
      rw [hrel]
      dsimp only
      rw [hrp]
    rw [hv]
  · intro hA hB p ps hC
    rw [fpf_cached env g _ _ hready]
    have hv : fpfLookup env g fileAbsPath fileName = p := by
      unfold fpfLookup
      rw [hA, hB, hC]
    rw [hv]

/-- C8 witness: on a ready state whose basename multimap holds two
candidates for shared.go and no path entries, the resolver returns the
first recorded candidate. -/
theorem c8_witness :
    findPackageForFile envW gY "/p/x/shared.go" "shared.go" =
      (gY, .ok "proj/a") :=
  (c8_lookup_order envW gY "/p/x/shared.go" "shared.go" rfl).2.2
    rfl rfl "proj/a" ["proj/b"] rfl

/-- C4: on a ready state, a write event either triggers a full rebuild,
when the written file is the handler entry file, or drops exactly the
packageCache entries of the packages owning that file name, leaving the
dependency graph, the reverse-dependency index and every other field
unchanged. -/
theorem c4_write_event (env : Env) (g : GoDepFind)
    (fileName filePath handlerMainFile : String)
    (hready : g.cachedModule = true) :
    updateCacheForFileWithContext env g fileName filePath "write"
        handlerMainFile =
      if handlerMainFile ≠ "" ∧ isSameFile env g filePath handlerMainFile
      then rebuildCache env g
      else ({ g with packageCache :=
          (((alookup g.fileToPackages fileName).getD []).foldl
            (fun pc pkg => adelete pc pkg) g.packageCache) }, none) := by
  rw [update_cached env g fileName filePath "write" handlerMainFile hready]
  rw [if_pos rfl]
  by_cases hcond : handlerMainFile ≠ "" ∧
      isSameFile env g filePath handlerMainFile
  · rw [if_pos hcond, if_pos hcond]
  · rw [if_neg hcond, if_neg hcond]
    exact invalidateOnly_spec g fileName

/-- C4 witness: a write on the non-entry file db.go of the scanned module
drops only the packageCache entry of proj/db and nothing else. -/
theorem c4_witness :
    updateCacheForFileWithContext envW gW "db.go" "/p/db/db.go" "write"
      "appA/main.go" =
    ({ gW with packageCache :=
        (((alookup gW.fileToPackages "db.go").getD []).foldl
          (fun pc pkg => adelete pc pkg) gW.packageCache) }, none) := by
  rw [c4_write_event envW gW "db.go" "/p/db/db.go" "appA/main.go"
    (by decide)]
  rw [if_neg (by decide)]

/-- C10: on an initialized engine state, a query whose changed file is
not the entry handle own main file takes the package-based ownership
path and is read-only: the state after the query, all cache indexes
included, is exactly the state before. -/
theorem c10_package_query_readonly (env : Env) (g : GoDepFind)
    (mainRel fileAbsPath event : String)
    (hready : g.cachedModule = true)
    (hnotown : isOwnMainFile env g mainRel fileAbsPath = false) :
    (ThisFileIsMine env g mainRel fileAbsPath event).1 = g := by
  unfold ThisFileIsMine
  by_cases h1 : fileAbsPath = ""
  · simp [h1]
  · rw [if_neg h1]
    by_cases h2 : mainRel = ""
    · simp [h2]
    · rw [if_neg h2]
      dsimp only
      by_cases h3 : statOk env (handlerMainAbs g mainRel) = true
      · rw [if_neg (not_not_intro h3)]
        have h5 : ¬ (isOwnMainFile env g mainRel fileAbsPath = true) := by
          simp [hnotown]
        by_cases hext : goExt (goBase (normalizeFileAbs env g
            fileAbsPath)) = ".go"
        · rw [if_pos hext]
          cases hval : env.isValidGoFile (normalizeFileAbs env g
              fileAbsPath) with
          | none => rfl
          | some b =>
            cases b with
            | false => rfl
            | true =>
              dsimp only
              rw [if_neg h5]
              rw [checkPBO_cached env g mainRel _ _ hready]
        · rw [if_neg hext]
          dsimp only
          rw [if_neg h5]
          rw [checkPBO_cached env g mainRel _ _ hready]
      · rw [if_pos (by simpa using h3)]

/-- C10 witness: the query on db.go leaves the scanned state intact. -/
theorem c10_witness :
    (ThisFileIsMine envW gW "appA/main.go" "/p/db/db.go" "write").1 =
      gW :=
  c10_package_query_readonly envW gW "appA/main.go" "/p/db/db.go" "write"
    (by decide) (by decide)

/-- C2 counterexample: on the ready state gC7 under the environment
envC7, every condition of the original claim holds — the entry handle
own main file exists on disk, the content validator accepts it, and the
changed file location equals that entry file — yet the write event makes
the routed lifecycle update perform a full rebuild whose lister fails,
and the query returns false with a wrapped error instead of the claimed
unconditional (true, nil). -/
theorem c2_counterexample :
    statOk envC7 (handlerMainAbs gC7 "appA/main.go") = true ∧
    isOwnMainFile envC7 gC7 "appA/main.go" "/p/appA/main.go" = true ∧
    (ThisFileIsMine envC7 gC7 "appA/main.go" "/p/appA/main.go"
      "write").2.1 = false ∧
    (ThisFileIsMine envC7 gC7 "appA/main.go" "/p/appA/main.go"
      "write").2.2.isSome = true := by decide

/-- C2 (amended): when the entry handle own main file exists on disk,
the content validator accepts the changed file, and its location
normalizes to exactly that entry file, the event is first routed to the
cache lifecycle manager as an entry-file-changed update, and — provided
that routed update reports no error (hypothesis h6; otherwise the query
returns false with the wrapped update error) — the query returns true
with no error for every event kind, its resulting state being the state
produced by that routed update. -/
theorem c2_own_file_owned (env : Env) (g : GoDepFind)
    (mainRel fileAbsPath event : String)
    (h1 : fileAbsPath ≠ "") (h2 : mainRel ≠ "")
    (h3 : statOk env (handlerMainAbs g mainRel) = true)
    (h4 : goExt (goBase (normalizeFileAbs env g fileAbsPath)) = ".go" →
      env.isValidGoFile (normalizeFileAbs env g fileAbsPath) = some true)
    (h5 : isOwnMainFile env g mainRel fileAbsPath = true)
    (h6 : (updateCacheForFileWithContext env g
      (goBase (normalizeFileAbs env g fileAbsPath))
      (normalizeFileAbs env g fileAbsPath) event mainRel).2 = none) :
    ThisFileIsMine env g mainRel fileAbsPath event =
      ((updateCacheForFileWithContext env g
        (goBase (normalizeFileAbs env g fileAbsPath))
        (normalizeFileAbs env g fileAbsPath) event mainRel).1,
       true, none) := by
  rw [ThisFileIsMine_main_path env g mainRel fileAbsPath event h1 h2 h3
    h4 h5]
  cases hu : updateCacheForFileWithContext env g
      (goBase (normalizeFileAbs env g fileAbsPath))
      (normalizeFileAbs env g fileAbsPath) event mainRel with
  | mk gu eu =>
    rw [hu] at h6
    dsimp only at h6
    subst h6
    rfl

/-- C2 witness: a write on the entry file of the scanned module is owned
and routed through the lifecycle manager. -/
theorem c2_witness :
    ThisFileIsMine envW gW "appA/main.go" "/p/appA/main.go" "write" =
      ((updateCacheForFileWithContext envW gW
        (goBase (normalizeFileAbs envW gW "/p/appA/main.go"))
        (normalizeFileAbs envW gW "/p/appA/main.go") "write"
        "appA/main.go").1, true, none) :=
  c2_own_file_owned envW gW "appA/main.go" "/p/appA/main.go" "write"
    (by decide) (by decide) (by decide) (fun _ => by decide) (by decide)
    (by decide)

/-- C3: on an initialized engine state, a query on a file indexed by no
unit — absent from the exact-path map, from the relative-path lookup and
from the basename multimap — returns false with no error and leaves the
state unchanged. -/
theorem c3_unindexed_not_owned (env : Env) (g : GoDepFind)
    (mainRel fileAbsPath event : String)
    (hready : g.cachedModule = true)
    (h1 : fileAbsPath ≠ "") (h2 : mainRel ≠ "")
    (h3 : statOk env (handlerMainAbs g mainRel) = true)
    (h4 : goExt (goBase (normalizeFileAbs env g fileAbsPath)) = ".go" →
      env.isValidGoFile (normalizeFileAbs env g fileAbsPath) = some true)
    (h5 : isOwnMainFile env g mainRel fileAbsPath = false)
    (hA : alookup g.filePathToPackage
      (normalizeFileAbs env g fileAbsPath) = none)
    (hB : (match goRel env.cwd (normalizeFileAbs env g fileAbsPath) with
           | some rp => alookup g.filePathToPackage rp
           | none => none) = none)
    (hC : (alookup g.fileToPackages
      (goBase (normalizeFileAbs env g fileAbsPath))).getD [] = []) :
    ThisFileIsMine env g mainRel fileAbsPath event = (g, false, none) := by
  rw [ThisFileIsMine_package_path env g mainRel fileAbsPath event h1 h2
    h3 h4 h5]
  rw [checkPBO_cached env g mainRel _ _ hready]
  have hv : fpfLookup env g (normalizeFileAbs env g fileAbsPath)
      (goBase (normalizeFileAbs env g fileAbsPath)) = "" := by
    unfold fpfLookup
    rw [hA, hB, hC]
  rw [hv, if_pos rfl]

/-- C3 witness: a file under an unknown directory is owned by nobody and
produces no error. -/
theorem c3_witness :
    ThisFileIsMine envW gW "appA/main.go" "/p/unknown/zz.go" "write" =
      (gW, false, none) :=
  c3_unindexed_not_owned envW gW "appA/main.go" "/p/unknown/zz.go" "write"
    (by decide) (by decide) (by decide) (by decide)
    (fun _ => by decide) (by decide) (by decide) (by decide) (by decide)

/-- C1 (amended): on an initialized engine state in which every
registered entry unit still has cached scan metadata with a
root-relative directory and the handle directory resolves to exactly one
entry unit E, a package-path query whose changed file the exact-path
File Index attributes to unit U returns true exactly when U is E itself,
or U is not an entry unit and E transitively imports U along the
direct-dependency edges of the dependency graph. -/
theorem c1_ownership_is_reachability (env : Env) (g : GoDepFind)
    (mainRel fileAbsPath event E U : String)
    (hready : g.cachedModule = true)
    (h1 : fileAbsPath ≠ "") (h2 : mainRel ≠ "")
    (h3 : statOk env (handlerMainAbs g mainRel) = true)
    (h4 : goExt (goBase (normalizeFileAbs env g fileAbsPath)) = ".go" →
      env.isValidGoFile (normalizeFileAbs env g fileAbsPath) = some true)
    (h5 : isOwnMainFile env g mainRel fileAbsPath = false)
    (hU : alookup g.filePathToPackage
      (normalizeFileAbs env g fileAbsPath) = some U)
    (hUne : U ≠ "")
    (hEmem : E ∈ g.mainPackages)
    (hEdir : handlerDirMatch g E (goDir mainRel) = true)
    (huniq : ∀ M ∈ g.mainPackages,
      handlerDirMatch g M (goDir mainRel) = true → M = E)
    (hcomplete : ∀ M ∈ g.mainPackages, ∃ pkg rel,
      alookup g.packageCache M = some (some pkg) ∧
        goRel g.rootDir pkg.dir = some rel) :
    ((ThisFileIsMine env g mainRel fileAbsPath event).2.1 = true ↔
      (U = E ∨ (U ∉ g.mainPackages ∧
        Reaches g.dependencyGraph E U))) := by
  rw [ThisFileIsMine_package_path env g mainRel fileAbsPath event h1 h2
    h3 h4 h5]
  rw [checkPBO_cached env g mainRel _ _ hready]
  have hv : fpfLookup env g (normalizeFileAbs env g fileAbsPath)
      (goBase (normalizeFileAbs env g fileAbsPath)) = U := by
    unfold fpfLookup
    rw [hU]
  dsimp only
  rw [hv, if_neg hUne]
  exact dpbh_eq_spec g mainRel E U hEmem hEdir huniq hcomplete

/-- C1 witness: on the scanned module, the file db.go of the imported
unit proj/db is owned by the entry proj/appA, matching reachability. -/
theorem c1_witness :
    ((ThisFileIsMine envW gW "appA/main.go" "/p/db/db.go" "write").2.1 =
        true ↔
      ("proj/db" = "proj/appA" ∨ ("proj/db" ∉ gW.mainPackages ∧
        Reaches gW.dependencyGraph "proj/appA" "proj/db"))) :=
  c1_ownership_is_reachability envW gW "appA/main.go" "/p/db/db.go"
    "write" "proj/appA" "proj/db" (by decide) (by decide) (by decide)
    (by decide) (fun _ => by decide) (by decide) (by decide) (by decide)
    (by decide) (by decide) (by decide)
    (by
      intro M hM
      have hm : M = "proj/appA" := by
        have hmains : gW.mainPackages = ["proj/appA"] := by decide
        rw [hmains] at hM
        simpa using hM
      subst hm
      exact ⟨pkgApp, "appA", by decide, by decide⟩)

/-- C1 counterexample: a reachable initialized state in which a second
entry unit other/appA has lost its packageCache entry. The handle
resolves uniquely to proj/appA, the changed file belongs to other/appA,
which proj/appA neither equals nor imports, yet the query claims
ownership through the base-name fallback of Case 1. -/
theorem c1_counterexample :
    (ThisFileIsMine envW gX "appA/main.go" "/p/otherapp/x.go"
      "write").2 = (true, none) ∧
    "proj/appA" ∈ gX.mainPackages ∧
    handlerDirMatch gX "proj/appA" (goDir "appA/main.go") = true ∧
    (∀ M ∈ gX.mainPackages,
      handlerDirMatch gX M (goDir "appA/main.go") = true →
        M = "proj/appA") ∧
    alookup gX.filePathToPackage
      (normalizeFileAbs envW gX "/p/otherapp/x.go") =
        some "other/appA" ∧
    isOwnMainFile envW gX "appA/main.go" "/p/otherapp/x.go" = false ∧
    "other/appA" ≠ "proj/appA" ∧
    ¬ Reaches gX.dependencyGraph "proj/appA" "other/appA" := by
  refine ⟨by decide, by decide, by decide, by decide, by decide,
    by decide, by decide, ?_⟩
  intro h
  exact absurd (reaches_nil h) (by decide)

theorem rebuild_err_shape (env : Env) (g : GoDepFind) (e : GoErr)
    (h : (rebuildCache env g).2 = some e) :
    (∃ e1, e = .wrapListPackages e1) ∨ (∃ e1, e = .wrapGetPackages e1) := by
  unfold rebuildCache listPackages at h
  cases hgl : env.goList "./..." with
  | none =>
    rw [hgl] at h
    dsimp only at h
    exact Or.inl ⟨_, (Option.some.inj h).symm⟩
  | some allPaths =>
    rw [hgl] at h
    dsimp only at h
    cases hgp : getPackages env g.rootDir allPaths with
    | error e2 =>
      rw [hgp] at h
      dsimp only at h
      exact Or.inr ⟨e2, (Option.some.inj h).symm⟩
    | ok packages =>
      rw [hgp] at h
      dsimp only at h
      exact absurd h (by simp)

theorem ensure_err_shape (env : Env) (g : GoDepFind) (e : GoErr)
    (h : (ensureCacheInitialized env g).2 = some e) :
    (∃ e1, e = .wrapListPackages e1) ∨ (∃ e1, e = .wrapGetPackages e1) := by
  unfold ensureCacheInitialized at h
  by_cases hc : g.cachedModule
  · simp [hc] at h
  · simp only [hc, if_false, Bool.false_eq_true] at h
    exact rebuild_err_shape env g e h

theorem checkPBO_err_shape (env : Env) (g : GoDepFind)
    (mainRel a b : String) (e : GoErr)
    (h : (checkPackageBasedOwnership env g mainRel a b).2.2 = some e) :
    (∃ e1, e = .wrapListPackages e1) ∨ (∃ e1, e = .wrapGetPackages e1) := by
  cases he : ensureCacheInitialized env g with
  | mk g1 e1 =>
    cases e1 with
    | some e0 =>
      have hfirst : checkPackageBasedOwnership env g mainRel a b =
          (g1, false, some e0) := by
        unfold checkPackageBasedOwnership findPackageForFile
        rw [he]
      rw [hfirst] at h
      dsimp only at h
      have he0 : e = e0 := (Option.some.inj h).symm
      subst he0
      exact ensure_err_shape env g e (by rw [he])
    | none =>
      rw [checkPBO_after_ensure env g g1 mainRel a b he] at h
      dsimp only at h
      exact absurd h (by simp)

/-- C5: the input-checking stage of the query errors exactly at its
precondition violations: an empty changed-file location yields the
empty-file error, an empty entry handle yields the empty-handle error, a
missing entry main file yields the missing-file error; when none of the
three preconditions is violated, any error the query returns is not one
of those input-validation errors. -/
theorem c5_errors_exactly_at_input_checks (env : Env) (g : GoDepFind)
    (mainRel fileAbsPath event : String) :
    (fileAbsPath = "" →
      ThisFileIsMine env g mainRel fileAbsPath event =
        (g, false, some .emptyFileAbsPath)) ∧
    (fileAbsPath ≠ "" → mainRel = "" →
      ThisFileIsMine env g mainRel fileAbsPath event =
        (g, false, some .emptyMainInput)) ∧
    (fileAbsPath ≠ "" → mainRel ≠ "" →
      statOk env (handlerMainAbs g mainRel) = false →
      ThisFileIsMine env g mainRel fileAbsPath event =
        (g, false, some (.mainFileNotExist mainRel))) ∧
    (fileAbsPath ≠ "" → mainRel ≠ "" →
      statOk env (handlerMainAbs g mainRel) = true →
      ∀ e, (ThisFileIsMine env g mainRel fileAbsPath event).2.2 =
          some e →
        e ≠ .emptyFileAbsPath ∧ e ≠ .emptyMainInput ∧
        ∀ p, e ≠ .mainFileNotExist p) := by
  refine ⟨?_, ?_, ?_, ?_⟩
  · intro h1
    simp [ThisFileIsMine, h1]
  · intro h1 h2
    unfold ThisFileIsMine
    rw [if_neg h1]
    simp [h2]
  · intro h1 h2 h3
    unfold ThisFileIsMine
    rw [if_neg h1, if_neg h2]
    dsimp only
    rw [if_pos (by simp [h3])]
  · intro h1 h2 h3 e he
    unfold ThisFileIsMine at he
    rw [if_neg h1, if_neg h2] at he
    dsimp only at he
    rw [if_neg (not_not_intro h3)] at he
    have hown : ∀ hyp : (if isOwnMainFile env g mainRel fileAbsPath then
        (match updateCacheForFileWithContext env g
            (goBase (normalizeFileAbs env g fileAbsPath))
            (normalizeFileAbs env g fileAbsPath) event mainRel with
         | (g1, some e2) => (g1, false, some (.cacheUpdateFailed e2))
         | (g1, none) => (g1, true, none))
      else checkPackageBasedOwnership env g mainRel
        (normalizeFileAbs env g fileAbsPath)
        (goBase (normalizeFileAbs env g fileAbsPath))).2.2 = some e,
        e ≠ .emptyFileAbsPath ∧ e ≠ .emptyMainInput ∧
          ∀ p, e ≠ .mainFileNotExist p := by
      intro hyp
      by_cases h5 : isOwnMainFile env g mainRel fileAbsPath = true
      · rw [if_pos h5] at hyp
        cases hu : updateCacheForFileWithContext env g
            (goBase (normalizeFileAbs env g fileAbsPath))
            (normalizeFileAbs env g fileAbsPath) event mainRel with
        | mk gu eu =>
          rw [hu] at hyp
          cases eu with
          | some e0 =>
            dsimp only at hyp
            have hee : e = .cacheUpdateFailed e0 :=
              (Option.some.inj hyp).symm
            subst hee
            exact ⟨by simp, by simp, fun p => by simp⟩
          | none =>
            dsimp only at hyp
            exact absurd hyp (by simp)
      · rw [if_neg h5] at hyp
        rcases checkPBO_err_shape env g mainRel _ _ e hyp with
          ⟨e1, rfl⟩ | ⟨e1, rfl⟩
        · exact ⟨by simp, by simp, fun p => by simp⟩
        · exact ⟨by simp, by simp, fun p => by simp⟩
    by_cases hext : goExt (goBase (normalizeFileAbs env g fileAbsPath)) =
        ".go"
    · rw [if_pos hext] at he
      cases hval : env.isValidGoFile (normalizeFileAbs env g
          fileAbsPath) with
      | none =>
        rw [hval] at he
        dsimp only at he
        have hee : e = .validationFailed := (Option.some.inj he).symm
        subst hee
        exact ⟨by simp, by simp, fun p => by simp⟩
      | some b =>
        cases b with
        | false =>
          rw [hval] at he
          dsimp only at he
          exact absurd he (by simp)
        | true =>
          rw [hval] at he
          dsimp only at he
          exact hown he
    · rw [if_neg hext] at he
      dsimp only at he
      exact hown he

/-- C5 witness: the empty changed-file location is rejected with the
empty-file invalid-input error. -/
theorem c5_witness :
    ThisFileIsMine envW gW "appA/main.go" "" "write" =
      (gW, false, some .emptyFileAbsPath) :=
  (c5_errors_exactly_at_input_checks envW gW "appA/main.go" "" "write").1
    rfl

theorem tfim_second_query (env : Env) (g : GoDepFind)
    (mainRel fileAbsPath event : String)
    (hev1 : event ≠ "create") (hev2 : event ≠ "rename")
    (h1 : fileAbsPath ≠ "") (h2 : mainRel ≠ "")
    (h3 : statOk env (handlerMainAbs g mainRel) = true)
    (h4 : goExt (goBase (normalizeFileAbs env g fileAbsPath)) = ".go" →
      env.isValidGoFile (normalizeFileAbs env g fileAbsPath) =
        some true) :
    (ThisFileIsMine env
      (ThisFileIsMine env g mainRel fileAbsPath event).1
      mainRel fileAbsPath event).2 =
    (ThisFileIsMine env g mainRel fileAbsPath event).2 := by
  obtain ⟨hroot, htest⟩ := tfim_pres env g mainRel fileAbsPath event
  by_cases h5 : isOwnMainFile env g mainRel fileAbsPath = true
  · have hm1 := ThisFileIsMine_main_path env g mainRel fileAbsPath event
      h1 h2 h3 h4 h5
    cases hu : updateCacheForFileWithContext env g
        (goBase (normalizeFileAbs env g fileAbsPath))
        (normalizeFileAbs env g fileAbsPath) event mainRel with
    | mk gu eu =>
      have hg2 : (ThisFileIsMine env g mainRel fileAbsPath event).1 =
          gu := by
        rw [hm1, hu]
        cases eu <;> rfl
      have hgur : gu.rootDir = g.rootDir := by
        rw [← hg2]
        exact hroot
      have h3b : statOk env (handlerMainAbs gu mainRel) = true := by
        rw [handlerMainAbs_congr gu g hgur]
        exact h3
      have hnormb : normalizeFileAbs env gu fileAbsPath =
          normalizeFileAbs env g fileAbsPath :=
        normalizeFileAbs_congr env gu g hgur fileAbsPath
      have h4b : goExt (goBase (normalizeFileAbs env gu fileAbsPath)) =
          ".go" →
          env.isValidGoFile (normalizeFileAbs env gu fileAbsPath) =
            some true := by
        rw [hnormb]
        exact h4
      have h5b : isOwnMainFile env gu mainRel fileAbsPath = true := by
        rw [isOwnMainFile_congr env gu g hgur]
        exact h5
      have hm2 := ThisFileIsMine_main_path env gu mainRel fileAbsPath
        event h1 h2 h3b h4b h5b
      have hstab := update_stable env g
        (goBase (normalizeFileAbs env g fileAbsPath))
        (normalizeFileAbs env g fileAbsPath) event mainRel hev1 hev2
      rw [hu] at hstab
      dsimp only at hstab
      rw [hg2, hm2, hnormb, hm1, hu]
      cases hu2 : updateCacheForFileWithContext env gu
          (goBase (normalizeFileAbs env g fileAbsPath))
          (normalizeFileAbs env g fileAbsPath) event mainRel with
      | mk gu2 eu2 =>
        rw [hu2] at hstab
        dsimp only at hstab
        subst hstab
        cases eu2 <;> rfl
  · have h5f : isOwnMainFile env g mainRel fileAbsPath = false := by
      simpa using h5
    have hp1 := ThisFileIsMine_package_path env g mainRel fileAbsPath
      event h1 h2 h3 h4 h5f
    have hg2 : (ThisFileIsMine env g mainRel fileAbsPath event).1 =
        (checkPackageBasedOwnership env g mainRel
          (normalizeFileAbs env g fileAbsPath)
          (goBase (normalizeFileAbs env g fileAbsPath))).1 := by
      rw [hp1]
    have hgur : (checkPackageBasedOwnership env g mainRel
        (normalizeFileAbs env g fileAbsPath)
        (goBase (normalizeFileAbs env g fileAbsPath))).1.rootDir =
        g.rootDir := by
      rw [← hg2]
      exact hroot
    have h3b : statOk env (handlerMainAbs
        (checkPackageBasedOwnership env g mainRel
          (normalizeFileAbs env g fileAbsPath)
          (goBase (normalizeFileAbs env g fileAbsPath))).1 mainRel) =
        true := by
      rw [handlerMainAbs_congr _ g hgur]
      exact h3
    have hnormb : normalizeFileAbs env
        (checkPackageBasedOwnership env g mainRel
          (normalizeFileAbs env g fileAbsPath)
          (goBase (normalizeFileAbs env g fileAbsPath))).1 fileAbsPath =
        normalizeFileAbs env g fileAbsPath :=
      normalizeFileAbs_congr env _ g hgur fileAbsPath
    have h4b : goExt (goBase (normalizeFileAbs env
        (checkPackageBasedOwnership env g mainRel
          (normalizeFileAbs env g fileAbsPath)
          (goBase (normalizeFileAbs env g fileAbsPath))).1
        fileAbsPath)) = ".go" →
        env.isValidGoFile (normalizeFileAbs env
          (checkPackageBasedOwnership env g mainRel
            (normalizeFileAbs env g fileAbsPath)
            (goBase (normalizeFileAbs env g fileAbsPath))).1
          fileAbsPath) = some true := by
      rw [hnormb]
      exact h4
    have h5b : isOwnMainFile env
        (checkPackageBasedOwnership env g mainRel
          (normalizeFileAbs env g fileAbsPath)
          (goBase (normalizeFileAbs env g fileAbsPath))).1 mainRel
        fileAbsPath = false := by
      rw [isOwnMainFile_congr env _ g hgur]
      exact h5f
    have hp2 := ThisFileIsMine_package_path env
      (checkPackageBasedOwnership env g mainRel
        (normalizeFileAbs env g fileAbsPath)
        (goBase (normalizeFileAbs env g fileAbsPath))).1 mainRel
      fileAbsPath event h1 h2 h3b h4b h5b
    rw [hg2, hp2, hnormb, hp1]
    rw [checkPBO_stable env g mainRel (normalizeFileAbs env g fileAbsPath)
      (goBase (normalizeFileAbs env g fileAbsPath))]

/-- C7 (amended): two consecutive identical ownedBy queries with no
intervening file-system event return identical results for every event
kind except create and rename; for a create or rename event on the entry
handle own main file, the first query may invalidate cached metadata
whose re-resolution then fails, changing the answer of the second
query. -/
theorem c7_idempotent_except_structural (env : Env) (g : GoDepFind)
    (mainRel fileAbsPath event : String)
    (hev1 : event ≠ "create") (hev2 : event ≠ "rename") :
    (ThisFileIsMine env
      (ThisFileIsMine env g mainRel fileAbsPath event).1
      mainRel fileAbsPath event).2 =
    (ThisFileIsMine env g mainRel fileAbsPath event).2 := by
  obtain ⟨hroot, htest⟩ := tfim_pres env g mainRel fileAbsPath event
  by_cases h1 : fileAbsPath = ""
  · have e1 : ∀ h : GoDepFind,
        (ThisFileIsMine env h mainRel fileAbsPath event).2 =
          (false, some .emptyFileAbsPath) := by
      intro h
      simp [ThisFileIsMine, h1]
    rw [e1, e1]
  · by_cases h2 : mainRel = ""
    · have e1 : ∀ h : GoDepFind,
          (ThisFileIsMine env h mainRel fileAbsPath event).2 =
            (false, some .emptyMainInput) := by
        intro h
        unfold ThisFileIsMine
        rw [if_neg h1]
        simp [h2]
      rw [e1, e1]
    · by_cases h3 : statOk env (handlerMainAbs g mainRel) = true
      · by_cases hext : goExt (goBase (normalizeFileAbs env g
            fileAbsPath)) = ".go"
        · cases hval : env.isValidGoFile (normalizeFileAbs env g
              fileAbsPath) with
          | none =>
            have e1 : ∀ h : GoDepFind, h.rootDir = g.rootDir →
                (ThisFileIsMine env h mainRel fileAbsPath event).2 =
                  (false, some .validationFailed) := by
              intro h hh
              unfold ThisFileIsMine
              rw [if_neg h1, if_neg h2]
              dsimp only
              rw [handlerMainAbs_congr h g hh,
                if_neg (not_not_intro h3),
                normalizeFileAbs_congr env h g hh, if_pos hext, hval]
            rw [e1 _ hroot, e1 g rfl]
          | some b =>
            cases b with
            | false =>
              have e1 : ∀ h : GoDepFind, h.rootDir = g.rootDir →
                  (ThisFileIsMine env h mainRel fileAbsPath event).2 =
                    (false, none) := by
                intro h hh
                unfold ThisFileIsMine
                rw [if_neg h1, if_neg h2]
                dsimp only
                rw [handlerMainAbs_congr h g hh,
                  if_neg (not_not_intro h3),
                  normalizeFileAbs_congr env h g hh, if_pos hext, hval]
              rw [e1 _ hroot, e1 g rfl]
            | true =>
              exact tfim_second_query env g mainRel fileAbsPath event
                hev1 hev2 h1 h2 h3 (fun _ => hval)
        · exact tfim_second_query env g mainRel fileAbsPath event
            hev1 hev2 h1 h2 h3 (fun hx => absurd hx hext)
      · have e1 : ∀ h : GoDepFind, h.rootDir = g.rootDir →
            (ThisFileIsMine env h mainRel fileAbsPath event).2 =
              (false, some (.mainFileNotExist mainRel)) := by
          intro h hh
          unfold ThisFileIsMine
          rw [if_neg h1, if_neg h2]
          dsimp only
          rw [handlerMainAbs_congr h g hh]
          rw [if_pos (by simpa using h3)]
        rw [e1 _ hroot, e1 g rfl]

/-- C7 counterexample: on a reachable ready state with a failing lister,
a create event on the entry handle own main file succeeds on the first
query, whose cache invalidation then makes the identical second query
fail, so two consecutive queries with no intervening file-system event
disagree. -/
theorem c7_counterexample :
    (ThisFileIsMine envC7
      (ThisFileIsMine envC7 gC7 "appA/main.go" "/p/appA/main.go"
        "create").1
      "appA/main.go" "/p/appA/main.go" "create").2 ≠
    (ThisFileIsMine envC7 gC7 "appA/main.go" "/p/appA/main.go"
      "create").2 := by decide

/-- C7 witness: two consecutive write queries on db.go agree. -/
theorem c7_witness :
    (ThisFileIsMine envW
      (ThisFileIsMine envW gW "appA/main.go" "/p/db/db.go" "write").1
      "appA/main.go" "/p/db/db.go" "write").2 =
    (ThisFileIsMine envW gW "appA/main.go" "/p/db/db.go" "write").2 :=
  c7_idempotent_except_structural envW gW "appA/main.go" "/p/db/db.go"
    "write" (by decide) (by decide)

end Godepfind
